import Mathlib

/-!
# Verification of the sist-sl movement-ledger core (src/app.py)

This file gives a shallow embedding of the ledger core of `app.py`:
the movement table (`movimentacoes`), the insert path `inserir_movimento`
(with `_base_registro`), the balance derivation `saldo_por_item`, the
status derivation `status_itens`, the pending-loan query
`emprestimos_pendentes_df`, and the reconciliation job
`migrate_link_old_returns`.

Modelling conventions:
* The SQLite table is a `List Mov` in rowid (= `id`) order together with
  the autoincrement counter `nextId`.  `loan_id` is a `Nat` where `0`
  stands for SQL NULL / 0 (the code treats `loan_id IS NULL OR loan_id = 0`
  as unlinked, and `df_mov` coerces NULL to 0).
* Timestamps (`timestamp` column, ordered by `datetime(timestamp)` in SQL
  and by `pd.to_datetime` in pandas) are modelled as `Nat` in chronological
  order.  `data`/`hora`/`prev_devolucao` stay `String`s because the code
  sorts and parses them as strings.
* Python `str.lower`, `str.startswith` and `str.strip` are modelled by
  `pyLower`, `pyStarts`, `pyTrim` on the character list of a `String`.
* SQL ordering (`ORDER BY datetime(timestamp)`) inside the reconciliation
  job and the multi-column `sort_values` of the pending-loan view (a stable
  lexsort in pandas) are modelled by the stable `List.insertionSort`; the
  properties proved about the job are independent of the tie order.  The
  single-column `df.sort_values("timestamp")` of the status view uses
  pandas' default `kind='quicksort'`, which is NOT stable, so that call is
  modelled only by its contract `isTsSortOf`: some timestamp-ascending
  permutation of the rows, the relative order of rows with equal
  timestamps being implementation-defined.
* Python falsy quantities (missing key, `None`, `0`, `""`) are modelled by
  the quantity value `0`.
-/

/-- Python `str.lower()` (character-wise). -/
def pyLower (s : String) : String := ⟨s.data.map Char.toLower⟩

/-- Python `str.startswith(p)`. -/
def pyStarts (s p : String) : Bool := p.data.isPrefixOf s.data

/-- Python `str.strip()` (drop surrounding whitespace). -/
def pyTrim (s : String) : String :=
  ⟨((s.data.dropWhile Char.isWhitespace).reverse.dropWhile Char.isWhitespace).reverse⟩

/-- Embedding of `lower(tipo) LIKE 'emprest%'` respectively `tipo.lower().startswith("emprest")`. -/
def isEmp (t : String) : Bool := pyStarts (pyLower t) "emprest"

/-- Embedding of `lower(tipo) LIKE 'devolu%'` respectively `tipo.lower().startswith("devolu")`. -/
def isDev (t : String) : Bool := pyStarts (pyLower t) "devolu"

/-- A row of the `movimentacoes` table (the columns the ledger core reads). -/
structure Mov where
  id : Nat
  timestamp : Nat
  data : String
  hora : String
  tipo : String
  item_nome : String
  categoria : String
  aluno_nome : String
  aluno_sobrenome : String
  aluno_serie : String
  responsavel : String
  prev_devolucao : String
  observacoes : String
  quantidade : Int
  beneficiario_tipo : String
  beneficiario_nome : String
  loan_id : Nat
deriving Repr, DecidableEq

/-- The movement store: rows in rowid order plus the autoincrement counter. -/
structure DB where
  movs : List Mov
  nextId : Nat
deriving Repr, DecidableEq

/-- A row of the `itens` catalog table (the columns the ledger core reads). -/
structure Item where
  item_nome : String
  titulo : String
  quant_total : Int
deriving Repr, DecidableEq

-- ---------------------------------------------------------------------------
-- inserir_movimento / _base_registro
-- ---------------------------------------------------------------------------

/-- The record dict passed to `inserir_movimento` after merging with the
column defaults (`base`): every column present, text columns default `""`,
`quantidade`/`loan_id` default `0`.  A Python-falsy quantity is `0`. -/
structure Reg where
  timestamp : Nat
  data : String
  hora : String
  tipo : String
  item_nome : String
  categoria : String
  aluno_nome : String
  aluno_sobrenome : String
  aluno_serie : String
  responsavel : String
  prev_devolucao : String
  observacoes : String
  quantidade : Int
  beneficiario_tipo : String
  beneficiario_nome : String
  loan_id : Nat
deriving Repr, DecidableEq

/-- Embedding of `inserir_movimento(reg)`: coerce a falsy quantity to 1, INSERT the row
(with the fresh autoincrement id), and if the row is an `Emprestimo` with a
falsy `loan_id`, UPDATE it so that `loan_id = id`.  Returns `(id, new db)`.
It performs no stock, catalog or pending validation of any kind. -/
def inserir_movimento (reg : Reg) (db : DB) : Nat × DB :=
  let q : Int := if reg.quantidade = 0 then 1 else reg.quantidade
  let mid := db.nextId
  let row : Mov :=
    { id := mid, timestamp := reg.timestamp, data := reg.data, hora := reg.hora,
      tipo := reg.tipo, item_nome := reg.item_nome, categoria := reg.categoria,
      aluno_nome := reg.aluno_nome, aluno_sobrenome := reg.aluno_sobrenome,
      aluno_serie := reg.aluno_serie, responsavel := reg.responsavel,
      prev_devolucao := reg.prev_devolucao, observacoes := reg.observacoes,
      quantidade := q, beneficiario_tipo := reg.beneficiario_tipo,
      beneficiario_nome := reg.beneficiario_nome, loan_id := reg.loan_id }
  let movs1 := db.movs ++ [row]
  let movs2 :=
    if isEmp reg.tipo = true ∧ reg.loan_id = 0 then
      movs1.map (fun m => if m.id = mid then { m with loan_id := mid } else m)
    else movs1
  (mid, { movs := movs2, nextId := db.nextId + 1 })

/-- Embedding of `_base_registro(...)`: builds the record dict from the form fields (the
current wall clock supplies `timestamp`/`data`/`hora`) and calls
`inserir_movimento`.  It re-applies the falsy-quantity coercion
(`int(quantidade) if quantidade else 1`) and `int(loan_id or 0)`. -/
def _base_registro (now_ts : Nat) (now_data now_hora : String)
    (tipo item_nome categoria : String) (quantidade : Int)
    (prev_dev : String) (observ : String) (responsavel : String)
    (aluno_nome aluno_sobrenome aluno_serie : String)
    (beneficiario_tipo beneficiario_nome : String) (loan_id : Nat)
    (db : DB) : Nat × DB :=
  inserir_movimento
    { timestamp := now_ts, data := now_data, hora := now_hora, tipo := tipo,
      item_nome := item_nome,
      categoria := if categoria = "" then "Livro" else categoria,
      aluno_nome := aluno_nome, aluno_sobrenome := aluno_sobrenome,
      aluno_serie := aluno_serie, responsavel := responsavel,
      prev_devolucao := prev_dev, observacoes := observ,
      quantidade := if quantidade = 0 then 1 else quantidade,
      beneficiario_tipo := beneficiario_tipo,
      beneficiario_nome := beneficiario_nome, loan_id := loan_id } db

-- ---------------------------------------------------------------------------
-- saldo_por_item
-- ---------------------------------------------------------------------------

/-- The sign a movement contributes to the per-item sum
(`1 if t.startswith("emprest") else (-1 if t.startswith("devolu") else 0)`). -/
def sinal (t : String) : Int := if isEmp t then 1 else if isDev t then -1 else 0

/-- Per-item signed quantity sum (`groupby("item_nome")["delta"].sum()`,
merged `how="left"` with missing groups filled by 0). -/
def sumDelta (dfm : List Mov) (item : String) : Int :=
  ((dfm.filter (fun m => m.item_nome = item)).map
    (fun m => m.quantidade * sinal m.tipo)).sum

/-- A row of the `saldo_por_item` result. -/
structure SaldoRow where
  item_nome : String
  titulo : String
  quant_total : Int
  emprestado : Int
  disponivel : Int
deriving Repr, DecidableEq

/-- Embedding of `saldo_por_item(dfm)`: one row per catalog item; `emprestado` is the
signed sum clipped below at 0 (no upper clip), `disponivel` is
`quant_total - emprestado` clipped below at 0.  An empty movement frame
short-circuits to `emprestado = 0`, `disponivel = quant_total`. -/
def saldo_por_item (dfi : List Item) (dfm : List Mov) : List SaldoRow :=
  if dfm.isEmpty then
    dfi.map (fun it =>
      { item_nome := it.item_nome, titulo := it.titulo,
        quant_total := it.quant_total, emprestado := 0,
        disponivel := it.quant_total })
  else
    dfi.map (fun it =>
      let emp := max 0 (sumDelta dfm it.item_nome)
      { item_nome := it.item_nome, titulo := it.titulo,
        quant_total := it.quant_total, emprestado := emp,
        disponivel := max 0 (it.quant_total - emp) })

/-- The balance row of one item, if the item is in the catalog. -/
def saldoRow (dfi : List Item) (dfm : List Mov) (item : String) : Option SaldoRow :=
  (saldo_por_item dfi dfm).find? (fun r => r.item_nome = item)

-- ---------------------------------------------------------------------------
-- migrate_link_old_returns (reconciliation job)
-- ---------------------------------------------------------------------------

/-- Embedding of `_benef_key(row)`: the borrower part of the legacy matching key. -/
inductive BenefKey where
  | professor (nome : String)
  | aluno (nome sobrenome serie : String)
deriving Repr, DecidableEq

/-- Embedding of `_benef_key`: teachers are keyed by stripped name, everyone else is an
`aluno` keyed by stripped (nome, sobrenome, serie). -/
def benefKey (m : Mov) : BenefKey :=
  if pyLower (pyTrim m.beneficiario_tipo) = "professor" then
    .professor (pyTrim m.beneficiario_nome)
  else
    .aluno (pyTrim m.aluno_nome) (pyTrim m.aluno_sobrenome) (pyTrim m.aluno_serie)

/-- The full FIFO matching key `(item_nome.strip(), _benef_key(row))`. -/
abbrev MKey := String × BenefKey

def movKey (m : Mov) : MKey := (pyTrim m.item_nome, benefKey m)

/-- Embedding of `linked_map` lookup: total quantity of Return movements carrying
`loan_id = lid` (`SELECT loan_id, SUM(quantidade) ... WHERE devolu AND
loan_id IS NOT NULL GROUP BY loan_id`, looked up at `lid`). -/
def linkedSum (l : List Mov) (lid : Nat) : Int :=
  ((l.filter (fun m => isDev m.tipo && m.loan_id == lid)).map
    (fun m => m.quantidade)).sum

/-- One entry of a FIFO queue: a loan id and its remaining capacity. -/
structure Bucket where
  id : Nat
  disp : Int
deriving Repr, DecidableEq

/-- Embedding of `ORDER BY datetime(timestamp)` inside the reconciliation
job, modelled as a stable sort on the chronological key (the properties
proved about the job are independent of the order of equal timestamps). -/
def sortByTs (l : List Mov) : List Mov :=
  l.insertionSort (fun a b => a.timestamp ≤ b.timestamp)

/-- One step of the FIFO-building loop: skip a loan without remaining
capacity, otherwise append its bucket to its key's queue. -/
def buildStep (all : List Mov) (f : MKey → List Bucket) (e : Mov) : MKey → List Bucket :=
  let disp := e.quantidade - linkedSum all e.id
  if disp ≤ 0 then f
  else fun k => if k = movKey e then f k ++ [{ id := e.id, disp := disp }] else f k

/-- The FIFO dict: `key -> list of {id, disponivel}` for every loan (in
chronological order) whose remaining capacity
`quantidade - linked_map.get(id, 0)` is positive. -/
def buildFifo (emps : List Mov) (all : List Mov) : MKey → List Bucket :=
  emps.foldl (buildStep all) (fun _ => [])

/-- The inner allocation loop over one FIFO queue: returns the allocations
`(loan_id, aloca)` in order, the updated queue, and the unallocated
leftover (`restante`). -/
def drain : Int → List Bucket → List (Nat × Int) × List Bucket × Int
  | r, [] => ([], [], r)
  | r, b :: bs =>
    if r ≤ 0 then ([], b :: bs, r)
    else if b.disp ≤ 0 then
      let x := drain r bs
      (x.1, b :: x.2.1, x.2.2)
    else
      let q := min r b.disp
      let x := drain (r - q) bs
      ((b.id, q) :: x.1, { b with disp := b.disp - q } :: x.2.1, x.2.2)

/-- The row INSERTed for one allocation: a copy of the unlinked return with
literal `tipo = 'Devolucao'`, the allocated quantity, the consuming loan's
id, and a fresh autoincrement id. -/
def mkLinkedRow (d : Mov) (newId : Nat) (lid : Nat) (q : Int) : Mov :=
  { d with id := newId, tipo := "Devolucao", quantidade := q, loan_id := lid }

/-- The rows INSERTed for a list of allocations (consecutive fresh ids). -/
def mkRows (d : Mov) : Nat → List (Nat × Int) → List Mov
  | _, [] => []
  | n, (lid, q) :: rest => mkLinkedRow d n lid q :: mkRows d (n + 1) rest

/-- The body of the `for _, d in df_dev.iterrows()` loop for one unlinked
return `d`: skip if its FIFO queue is absent; otherwise allocate against the
queue, INSERT one linked return per allocation, then DELETE the original if
fully allocated or UPDATE its `quantidade` to the leftover. -/
def processDev (st : DB × (MKey → List Bucket)) (d : Mov) :
    DB × (MKey → List Bucket) :=
  let db := st.1
  let fifo := st.2
  let k := movKey d
  let fila := fifo k
  if fila.isEmpty then st
  else
    let x := drain d.quantidade fila
    let allocs := x.1
    let fila' := x.2.1
    let rest := x.2.2
    let movs1 := db.movs ++ mkRows d db.nextId allocs
    let movs2 :=
      if rest ≤ 0 then movs1.filter (fun m => m.id ≠ d.id)
      else movs1.map (fun m => if m.id = d.id then { m with quantidade := rest } else m)
    ({ movs := movs2, nextId := db.nextId + allocs.length },
     fun k' => if k' = k then fila' else fifo k')

/-- Step 1 of the job, per row: `UPDATE movimentacoes SET loan_id = id WHERE
(loan_id IS NULL OR loan_id = 0) AND lower(tipo) LIKE 'emprest%'`. -/
def selfLinkF (m : Mov) : Mov :=
  if isEmp m.tipo = true ∧ m.loan_id = 0 then { m with loan_id := m.id } else m

/-- The store after step 1 (self-linking all loans). -/
def selfLinked (db : DB) : DB := { db with movs := db.movs.map selfLinkF }

/-- Embedding of `df_emp`: all loan rows, in chronological order. -/
def empsOf (l : List Mov) : List Mov := sortByTs (l.filter (fun m => isEmp m.tipo))

/-- Embedding of `df_dev`: all unlinked return rows, in chronological order. -/
def devsOf (l : List Mov) : List Mov :=
  sortByTs (l.filter (fun m => isDev m.tipo && m.loan_id == 0))

/-- Embedding of `migrate_link_old_returns()`: self-link loans, and unless there are no
loans at all, build the FIFO queues and drain the unlinked returns in
chronological order. -/
def migrate_link_old_returns (db : DB) : DB :=
  let db1 := selfLinked db
  let emps := empsOf db1.movs
  if emps.isEmpty then db1
  else ((devsOf db1.movs).foldl processDev (db1, buildFifo emps db1.movs)).1

-- ---------------------------------------------------------------------------
-- emprestimos_pendentes_df: per-loan pending quantities
-- ---------------------------------------------------------------------------

/-- Embedding of `q_devolvido` of a loan row whose `loan_id` field is `lid`: the summed
quantity of Return movements with positive `loan_id = lid`
(`dfm[devolu & (loan_id>0)].groupby("loan_id").sum()`, missing group = 0). -/
def q_devolvido (dfm : List Mov) (lid : Nat) : Int :=
  ((dfm.filter (fun m => isDev m.tipo && decide (0 < m.loan_id) && m.loan_id == lid)).map
    (fun m => m.quantidade)).sum

/-- Embedding of `q_pendente` of a loan row: `(q_emprestado - q_devolvido).clip(lower=0)`. -/
def q_pendente (dfm : List Mov) (e : Mov) : Int :=
  max 0 (e.quantidade - q_devolvido dfm e.loan_id)

/-- Find a movement row by id. -/
def rowById (l : List Mov) (i : Nat) : Option Mov :=
  l.find? (fun m => m.id == i)

-- ---------------------------------------------------------------------------
-- Concrete scenario data (shared by counterexamples and witnesses)
-- ---------------------------------------------------------------------------

/-- A concrete student-loan movement on item "Atlas" (borrower Ana B, 5A). -/
def exLoan (i ts : Nat) (q : Int) : Mov :=
  { id := i, timestamp := ts, data := "", hora := "", tipo := "Emprestimo",
    item_nome := "Atlas", categoria := "Livro", aluno_nome := "Ana",
    aluno_sobrenome := "B", aluno_serie := "5A", responsavel := "",
    prev_devolucao := "", observacoes := "", quantidade := q,
    beneficiario_tipo := "aluno", beneficiario_nome := "", loan_id := 0 }

/-- A concrete return movement with the same item/borrower as `exLoan`. -/
def exRet (i ts : Nat) (q : Int) (lid : Nat) : Mov :=
  { exLoan i ts q with tipo := "Devolucao", loan_id := lid }

/-- Catalog: the item "Atlas" with total stock 1. -/
def exCat : List Item := [{ item_nome := "Atlas", titulo := "Atlas", quant_total := 1 }]

/-- C1 scenario: a single loan of quantity 2 on an item with stock 1. -/
def dbOver : DB := { movs := [exLoan 1 1 2], nextId := 2 }

/-- C2 scenario: stock 1 fully loaned out, then another loan is requested. -/
def dbFull : DB := { movs := [{ exLoan 1 1 1 with loan_id := 1 }], nextId := 2 }

/-- C2 loan request: one more unit of "Atlas" (available is 0). -/
def regOverLoan : Reg :=
  { timestamp := 2, data := "", hora := "", tipo := "Emprestimo",
    item_nome := "Atlas", categoria := "Livro", aluno_nome := "Ana",
    aluno_sobrenome := "B", aluno_serie := "5A", responsavel := "",
    prev_devolucao := "", observacoes := "", quantidade := 1,
    beneficiario_tipo := "aluno", beneficiario_nome := "", loan_id := 0 }

/-- C3 return request: return 5 units against loan 1 whose pending is 1. -/
def regOverRet : Reg :=
  { regOverLoan with tipo := "Devolucao", quantidade := 5, loan_id := 1 }

/-- C4 scenario: L1(qty 2, t=1), L2(qty 3, t=2), unlinked return qty 4 at t=3. -/
def dbFifo : DB := { movs := [exLoan 1 1 2, exLoan 2 2 3, exRet 3 3 4 0], nextId := 4 }

/-- C6 scenario: one loan qty 2 and one unlinked return qty 2 (single-loan
absorption). -/
def dbSingle : DB := { movs := [exLoan 1 1 2, exRet 2 2 2 0], nextId := 3 }

/-- C7 scenario: loan qty 1 and unlinked return qty 3 (partial absorption
leaves a remainder on the original record). -/
def dbPartial : DB := { movs := [exLoan 1 1 1, exRet 2 2 3 0], nextId := 3 }

/-- Well-formed store: rowids are positive, below the autoincrement counter,
and pairwise distinct (guaranteed by `INTEGER PRIMARY KEY AUTOINCREMENT`). -/
def WF (db : DB) : Prop :=
  (∀ m ∈ db.movs, 1 ≤ m.id ∧ m.id < db.nextId) ∧
  (db.movs.map (fun m => m.id)).Nodup

instance (db : DB) : Decidable (WF db) := by
  unfold WF
  infer_instance

/-- All fields of two movement rows agree except possibly `quantidade`. -/
def sameCore (m m0 : Mov) : Prop := { m with quantidade := m0.quantidade } = m0

/-- Total quantity allocated to loan `i` in an allocation list. -/
def amt (al : List (Nat × Int)) (i : Nat) : Int :=
  ((al.filter (fun p => p.1 == i)).map (fun p => p.2)).sum

/-- A loan row's remaining capacity as the job computes it:
`disponivel = quantidade - linked_map.get(id, 0)`. -/
def capacity (l : List Mov) (e : Mov) : Int := e.quantidade - linkedSum l e.id

/-- A store on which the reconciliation job is a no-op: every loan row is
already self-linked, and every still-unlinked return row faces only
exhausted loans of its matching key (no remaining capacity anywhere). -/
def Settled (db : DB) : Prop :=
  (∀ m ∈ db.movs, isEmp m.tipo = true → m.loan_id ≠ 0) ∧
  (∀ d ∈ db.movs, isDev d.tipo = true → d.loan_id = 0 →
     ∀ e ∈ db.movs, isEmp e.tipo = true → movKey e = movKey d →
       capacity db.movs e ≤ 0)

/-- Invariant of the drain loop of the reconciliation job, relating the
current store/FIFO state `st` to the post-self-link snapshot `db1`, the loan
list `emps` and the still-unprocessed returns `remaining`. -/
def DrainInv (db1 : DB) (emps : List Mov) (remaining : List Mov)
    (st : DB × (MKey → List Bucket)) : Prop :=
  (∀ m ∈ st.1.movs, m.id < st.1.nextId) ∧
  ((st.1.movs.map (fun m => m.id)).Nodup) ∧
  (db1.nextId ≤ st.1.nextId) ∧
  (st.1.movs.filter (fun m => isEmp m.tipo) = db1.movs.filter (fun m => isEmp m.tipo)) ∧
  (∀ d ∈ remaining, d ∈ st.1.movs) ∧
  (∀ k, ∀ b ∈ st.2 k, ∃ e ∈ emps, e.id = b.id ∧ movKey e = k ∧
      capacity st.1.movs e = b.disp) ∧
  (∀ k, ((st.2 k).map (fun b => b.id)).Nodup) ∧
  (∀ e ∈ emps, 0 < capacity db1.movs e → ∃ b ∈ st.2 (movKey e), b.id = e.id) ∧
  (∀ e ∈ emps, capacity st.1.movs e ≤ capacity db1.movs e) ∧
  (∀ m ∈ st.1.movs, isDev m.tipo = true → m.loan_id = 0 →
    (∀ d ∈ remaining, m.id ≠ d.id) →
    ∀ e ∈ emps, movKey e = movKey m → capacity st.1.movs e ≤ 0)

-- ---------------------------------------------------------------------------
-- emprestimos_pendentes_df (pending-loan query) and status_itens
-- ---------------------------------------------------------------------------

/-- Digit-string to number (used by the date parser). -/
def digitsToNat (cs : List Char) : Option Nat :=
  if cs.isEmpty then none
  else if cs.all Char.isDigit then
    some (cs.foldl (fun n c => n * 10 + (c.toNat - '0'.toNat)) 0)
  else none

/-- Embedding of `datetime.strptime(s, "%d/%m/%Y").date()` as the pending list needs it:
parse `dd/mm/yyyy` into `(year, month, day)`, `none` on malformed input
(the code turns parse exceptions into `False`). -/
def parseDMY (s : String) : Option (Nat × Nat × Nat) :=
  match (s.data.splitOn '/').map digitsToNat with
  | [some dd, some mm, some yy] =>
    if 1 ≤ dd ∧ dd ≤ 31 ∧ 1 ≤ mm ∧ mm ≤ 12 then some (yy, mm, dd) else none
  | _ => none

/-- Chronological (lexicographic year/month/day) order on parsed dates. -/
def dateLT (a b : Nat × Nat × Nat) : Bool :=
  if a.1 ≠ b.1 then decide (a.1 < b.1)
  else if a.2.1 ≠ b.2.1 then decide (a.2.1 < b.2.1)
  else decide (a.2.2 < b.2.2)

/-- Embedding of `_is_late(s)`: a loan is overdue when its due-date string parses and the
parsed date is strictly before today; empty or malformed strings are not
late. -/
def _is_late (today : Nat × Nat × Nat) (s : String) : Bool :=
  match parseDMY s with
  | some ymd => dateLT ymd today
  | none => false

/-- A row of the `emprestimos_pendentes_df` result. -/
structure PendRow where
  loan_id : Nat
  item_nome : String
  categoria : String
  titulo : String
  data : String
  hora : String
  prev_devolucao : String
  beneficiario_tipo : String
  beneficiario_nome : String
  aluno_nome : String
  aluno_sobrenome : String
  aluno_serie : String
  q_emprestado : Int
  q_devolvido : Int
  q_pendente : Int
  atrasado : Bool
deriving Repr, DecidableEq

/-- Title join (`emp.merge(dfi[["item_nome","titulo"]], how="left")`, with the
empty-catalog fallback `emp["titulo"] = emp["item_nome"]`; an unmatched left
merge leaves a blank). -/
def tituloOf (dfi : List Item) (item : String) : String :=
  if dfi.isEmpty then item
  else
    match dfi.find? (fun it => it.item_nome == item) with
    | some it => it.titulo
    | none => ""

/-- The enriched pending row for one loan movement. -/
def pendRowOf (dfm : List Mov) (dfi : List Item) (today : Nat × Nat × Nat)
    (e : Mov) : PendRow :=
  let qdev := q_devolvido dfm e.loan_id
  { loan_id := e.loan_id, item_nome := e.item_nome, categoria := e.categoria,
    titulo := tituloOf dfi e.item_nome, data := e.data, hora := e.hora,
    prev_devolucao := e.prev_devolucao, beneficiario_tipo := e.beneficiario_tipo,
    beneficiario_nome := e.beneficiario_nome, aluno_nome := e.aluno_nome,
    aluno_sobrenome := e.aluno_sobrenome, aluno_serie := e.aluno_serie,
    q_emprestado := e.quantidade, q_devolvido := qdev,
    q_pendente := max 0 (e.quantidade - qdev),
    atrasado := _is_late today e.prev_devolucao }

/-- Lexicographic order on the character lists of two strings, by code
point — exactly how Python (and hence pandas `sort_values` on object
columns) compares strings. -/
def charListLE : List Char → List Char → Bool
  | [], _ => true
  | _ :: _, [] => false
  | a :: as, b :: bs => if a = b then charListLE as bs else decide (a < b)

def strLE (a b : String) : Bool := charListLE a.data b.data

/-- The sort key of `sort_values(["atrasado","prev_devolucao","data","hora"],
ascending=[False, True, True, True])`: overdue first, then the due-date,
date and hour STRINGS in ascending lexicographic order. -/
def pendLE (a b : PendRow) : Bool :=
  let ka : Nat := if a.atrasado then 0 else 1
  let kb : Nat := if b.atrasado then 0 else 1
  if ka ≠ kb then decide (ka < kb)
  else if a.prev_devolucao ≠ b.prev_devolucao then strLE a.prev_devolucao b.prev_devolucao
  else if a.data ≠ b.data then strLE a.data b.data
  else strLE a.hora b.hora

/-- Embedding of `emprestimos_pendentes_df()`: enrich every Loan movement with its
returned/pending quantities and overdue flag, keep only rows with positive
pending quantity, and sort by the key above (stable). -/
def emprestimos_pendentes_df (today : Nat × Nat × Nat) (dfi : List Item)
    (dfm : List Mov) : List PendRow :=
  let emp := dfm.filter (fun m => isEmp m.tipo)
  let rows := emp.map (pendRowOf dfm dfi today)
  (rows.filter (fun r => 0 < r.q_pendente)).insertionSort
    (fun a b => pendLE a b = true)

/-- The contract of `df.sort_values("timestamp")` in `status_itens`: pandas'
default `kind='quicksort'` is not stable, so all the call guarantees is that
`out` is SOME permutation of the snapshot `dfm` that ascends in timestamp;
the relative order of rows with equal timestamps is
implementation-defined. -/
def isTsSortOf (dfm out : List Mov) : Prop :=
  out.Perm dfm ∧ out.Pairwise (fun a b => a.timestamp ≤ b.timestamp)

/-- The movement `status_itens` deems last for one item:
`df.sort_values("timestamp").groupby("item_nome").tail(1)` restricted to
`item` — the last row of the group in the sorted frame `out`, where `out`
is any timestamp-sorted order of the snapshot (see `isTsSortOf`). -/
def ultimoPorItem (out : List Mov) (item : String) : Option Mov :=
  (out.filter (fun m => m.item_nome = item)).getLast?

/-- Embedding of `"Emprestado" if str(t).lower().startswith("emprest") else "Disponível"`. -/
def statusOf (t : String) : String := if isEmp t then "Emprestado" else "Disponível"

/-- A row of the `status_itens` result. -/
structure StatusRow where
  item_nome : String
  categoria : String
  status : String
  aluno : String
  turma : String
  prev_devolucao : String
deriving Repr, DecidableEq

/-- Embedding of `status_itens(dfm)` (the per-item status part): one row per catalog item
(the right merge keeps all catalog items), showing the status derived from
the item's last movement in the timestamp-sorted frame `out` (any order
admitted by `isTsSortOf`), or blanks when the item has none. -/
def status_itens (dfi : List Item) (out : List Mov) : List StatusRow :=
  dfi.map (fun it =>
    match ultimoPorItem out it.item_nome with
    | some m =>
      { item_nome := it.item_nome, categoria := m.categoria,
        status := statusOf m.tipo,
        aluno := pyTrim (m.aluno_nome ++ " " ++ m.aluno_sobrenome),
        turma := m.aluno_serie, prev_devolucao := m.prev_devolucao }
    | none =>
      { item_nome := it.item_nome, categoria := "", status := "",
        aluno := "", turma := "", prev_devolucao := "" })

/-- C8 counterexample store: two self-linked loans on "Atlas", due
`10/12/2025` (loan 1) and `02/01/2026` (loan 2), no returns. -/
def dbDates : DB :=
  { movs :=
      [{ exLoan 1 1 1 with
          loan_id := 1
          prev_devolucao := "10/12/2025"
          data := "01/10/2025"
          hora := "08:00:00" },
       { exLoan 2 2 1 with
          loan_id := 2
          prev_devolucao := "02/01/2026"
          data := "01/10/2025"
          hora := "09:00:00" }],
    nextId := 3 }

/-- No `tipo` string is simultaneously `emprest%`-like and `devolu%`-like. -/
theorem isEmp_isDev_disjoint (t : String) (h : isDev t = true) : isEmp t = false := by
  unfold isDev isEmp pyStarts at *
  cases hd : (pyLower t).data with
  | nil => rw [hd] at h; simp [List.isPrefixOf] at h
  | cons c cs =>
    rw [hd] at h
    simp only [show "devolu".data = ['d','e','v','o','l','u'] from rfl,
      List.isPrefixOf, Bool.and_eq_true, beq_iff_eq] at h
    simp only [show "emprest".data = ['e','m','p','r','e','s','t'] from rfl,
      List.isPrefixOf]
    rw [← h.1]
    simp

-- ---------------------------------------------------------------------------
-- C1: balance derivation
-- ---------------------------------------------------------------------------

/-- C1 (counterexample): with catalog stock 1 and a single Loan of quantity
2, `saldo_por_item` reports `on_loan = 2` (not clamped to `[0, total_stock]`)
and `available = 0`, so `available + on_loan = 2 ≠ 1 = total_stock`:
the claimed upper clamp and the sum identity fail. -/
theorem C1_counterexample :
    ((saldoRow exCat dbOver.movs "Atlas").map
        (fun r => (r.emprestado, r.disponivel, r.quant_total)) = some (2, 0, 1)) ∧
    ¬((0 : Int) + 2 = 1) ∧ ¬((2 : Int) ≤ 1) := by
  refine ⟨by decide, by decide, by decide⟩

/-- C1 (amended): `on_loan` is the signed sum clamped only from below at 0
(there is no upper clamp at `total_stock`), `available` is
`total_stock − on_loan` clamped from below at 0, and the identity
`available + on_loan = total_stock` holds exactly when `on_loan` does not
exceed `total_stock` (given non-negative catalog stock). -/
theorem C1_theorem (dfi : List Item) (dfm : List Mov)
    (hstock : ∀ it ∈ dfi, 0 ≤ it.quant_total) :
    ∀ r ∈ saldo_por_item dfi dfm,
      r.emprestado = max 0 (sumDelta dfm r.item_nome) ∧
      r.disponivel = max 0 (r.quant_total - r.emprestado) ∧
      (r.emprestado ≤ r.quant_total → r.disponivel + r.emprestado = r.quant_total) := by
  intro r hr
  unfold saldo_por_item at hr
  by_cases hemp : dfm.isEmpty
  · simp only [hemp, if_pos] at hr
    rcases List.mem_map.1 hr with ⟨it, hit, rfl⟩
    have h0 : dfm = [] := List.isEmpty_iff.1 hemp
    subst h0
    refine ⟨by simp [sumDelta], ?_, ?_⟩
    · simpa using (max_eq_right (hstock it hit)).symm
    · intro _
      simp [hstock it hit]
  · simp only [hemp, if_neg, Bool.false_eq_true] at hr
    rcases List.mem_map.1 hr with ⟨it, hit, rfl⟩
    refine ⟨rfl, rfl, ?_⟩
    intro hle
    simp only at hle ⊢
    omega

/-- C1 witness: the amended theorem applied to the concrete catalog/ledger
`exCat` / one loan of quantity 1. -/
theorem C1_witness :
    (∀ it ∈ exCat, 0 ≤ it.quant_total) ∧
    (∀ r ∈ saldo_por_item exCat [exLoan 1 1 1],
      r.emprestado = max 0 (sumDelta [exLoan 1 1 1] r.item_nome) ∧
      r.disponivel = max 0 (r.quant_total - r.emprestado) ∧
      (r.emprestado ≤ r.quant_total → r.disponivel + r.emprestado = r.quant_total)) :=
  ⟨by decide, C1_theorem exCat [exLoan 1 1 1] (by decide)⟩

-- ---------------------------------------------------------------------------
-- C2 / C3 / C10: the insert path never validates
-- ---------------------------------------------------------------------------

/-- C2 (counterexample): with stock 1 fully loaned out (`available = 0`), a
further loan request of quantity 1 > 0 still appends a movement, and a loan
on an item absent from the catalog also appends: `inserir_movimento` raises
neither `InsufficientStock` nor `UnknownItem`, appending in both cases. -/
theorem C2_counterexample :
    ((saldoRow exCat dbFull.movs "Atlas").map (fun r => r.disponivel) = some 0) ∧
    regOverLoan.quantidade = 1 ∧
    ((inserir_movimento regOverLoan dbFull).2.movs.length = dbFull.movs.length + 1) ∧
    ((saldoRow exCat dbFull.movs "Inexistente") = none) ∧
    ((inserir_movimento { regOverLoan with item_nome := "Inexistente" }
        dbFull).2.movs.length = dbFull.movs.length + 1) := by
  refine ⟨by decide, by decide, by decide, by decide, by decide⟩

/-- C2 (amended): the loan-append path performs no availability or catalog
validation at all: for every record and every store state,
`inserir_movimento` appends exactly one movement, returns the fresh id, and
bumps the autoincrement counter (the only availability gating lives in the
UI widget layer, not in this path). -/
theorem C2_theorem (reg : Reg) (db : DB) :
    (inserir_movimento reg db).2.movs.length = db.movs.length + 1 ∧
    (inserir_movimento reg db).1 = db.nextId ∧
    (inserir_movimento reg db).2.nextId = db.nextId + 1 := by
  unfold inserir_movimento
  by_cases h : isEmp reg.tipo = true ∧ reg.loan_id = 0 <;>
    simp [h]

/-- C3 (counterexample): with loan 1 of quantity 1 (pending 1), a return of
quantity 5 linked to loan 1 still appends; afterwards the summed linked
return quantity for loan 1 is 5, exceeding the loan's quantity 1: no
`OverReturn` failure occurs and the linked-sum bound is violated. -/
theorem C3_counterexample :
    ((inserir_movimento regOverRet dbFull).2.movs.length = 2) ∧
    (q_devolvido (inserir_movimento regOverRet dbFull).2.movs 1 = 5) ∧
    ((rowById dbFull.movs 1).map (fun e => e.quantidade) = some 1) ∧
    ¬(q_devolvido (inserir_movimento regOverRet dbFull).2.movs 1 ≤ 1) := by
  refine ⟨by decide, by decide, by decide, by decide⟩

/-- C3 (amended): the return-append path performs no `OverReturn` (or any
pending-quantity) check: every Return record is appended unconditionally,
carrying exactly the requested `loan_id` and quantity (after the
falsy-to-1 coercion); the derived pending quantity is merely clamped at 0
afterwards. -/
theorem C3_theorem (reg : Reg) (db : DB) (h : isDev reg.tipo = true) :
    (inserir_movimento reg db).2.movs.length = db.movs.length + 1 ∧
    ∃ row : Mov, (inserir_movimento reg db).2.movs.getLast? = some row ∧
      row.id = db.nextId ∧ row.loan_id = reg.loan_id ∧ row.tipo = reg.tipo ∧
      row.quantidade = (if reg.quantidade = 0 then 1 else reg.quantidade) := by
  have hne : isEmp reg.tipo = false := isEmp_isDev_disjoint reg.tipo h
  unfold inserir_movimento
  simp [hne]

/-- C3 witness: the amended theorem at the concrete over-return request. -/
theorem C3_witness :
    (isDev regOverRet.tipo = true) ∧
    ((inserir_movimento regOverRet dbFull).2.movs.length = dbFull.movs.length + 1 ∧
     ∃ row : Mov, (inserir_movimento regOverRet dbFull).2.movs.getLast? = some row ∧
       row.id = dbFull.nextId ∧ row.loan_id = regOverRet.loan_id ∧
       row.tipo = regOverRet.tipo ∧
       row.quantidade = (if regOverRet.quantidade = 0 then 1 else regOverRet.quantidade)) :=
  ⟨by decide, C3_theorem regOverRet dbFull (by decide)⟩

/-- C10: a record whose quantity is Python-falsy (missing, `None`, `0` or
empty — all modelled by the value 0) is not rejected: the insert succeeds
(returns the fresh id, appends one row) and the stored movement has
quantity 1. -/
theorem C10_theorem (reg : Reg) (db : DB) (h : reg.quantidade = 0) :
    (inserir_movimento reg db).1 = db.nextId ∧
    (inserir_movimento reg db).2.movs.length = db.movs.length + 1 ∧
    ∃ row : Mov, (inserir_movimento reg db).2.movs.getLast? = some row ∧
      row.id = db.nextId ∧ row.quantidade = 1 := by
  unfold inserir_movimento
  by_cases hc : isEmp reg.tipo = true ∧ reg.loan_id = 0 <;>
    simp [hc, h, List.getLast?_concat]

/-- C10 witness: inserting a loan record with falsy quantity into the empty
store yields one stored movement of quantity 1. -/
theorem C10_witness :
    ({ regOverLoan with quantidade := 0 } : Reg).quantidade = 0 ∧
    ((inserir_movimento { regOverLoan with quantidade := 0 } ⟨[], 1⟩).1 = (1 : Nat) ∧
     (inserir_movimento { regOverLoan with quantidade := 0 } ⟨[], 1⟩).2.movs.length =
       ([] : List Mov).length + 1 ∧
     ∃ row : Mov,
       (inserir_movimento { regOverLoan with quantidade := 0 } ⟨[], 1⟩).2.movs.getLast? =
         some row ∧ row.id = 1 ∧ row.quantidade = 1) :=
  ⟨rfl, C10_theorem { regOverLoan with quantidade := 0 } ⟨[], 1⟩ rfl⟩

-- ---------------------------------------------------------------------------
-- C4: FIFO reconciliation scenario
-- ---------------------------------------------------------------------------

/-- C4: in the spec's FIFO scenario (L1 qty 2 at t=1, L2 qty 3 at t=2, same
(item, borrower), one unlinked Return qty 4 at t=3), the reconciliation job
leaves L1 with pending 0 and L2 with pending 1 and produces exactly two
linked Return records, of quantity 2 against L1 and quantity 2 against L2
(earliest loan consumed first). -/
theorem C4_theorem :
    ((rowById (migrate_link_old_returns dbFifo).movs 1).map
        (fun e => q_pendente (migrate_link_old_returns dbFifo).movs e) = some 0) ∧
    ((rowById (migrate_link_old_returns dbFifo).movs 2).map
        (fun e => q_pendente (migrate_link_old_returns dbFifo).movs e) = some 1) ∧
    (((migrate_link_old_returns dbFifo).movs.filter
        (fun m => isDev m.tipo && decide (0 < m.loan_id))).map
        (fun m => (m.loan_id, m.quantidade)) = [(1, 2), (2, 2)]) := by
  refine ⟨by decide, by decide, by decide⟩

-- ---------------------------------------------------------------------------
-- C6 / C7 counterexamples: what the job does to original return rows
-- ---------------------------------------------------------------------------

/-- C6 (counterexample): a single loan (qty 2) fully absorbs an unlinked
return (qty 2), yet the job does NOT set `loan_id` on the original record
in place: the original record (id 2) is deleted and a NEW linked Return
record (id 3) is inserted. -/
theorem C6_counterexample :
    (rowById (migrate_link_old_returns dbSingle).movs 2 = none) ∧
    ((migrate_link_old_returns dbSingle).movs.map
        (fun m => (m.id, m.tipo, m.loan_id, m.quantidade)) =
      [(1, "Emprestimo", 1, 2), (3, "Devolucao", 1, 2)]) := by
  refine ⟨by decide, by decide⟩

/-- C7 (counterexample): movements are not immutable after append: with a
loan of qty 1 and an unlinked return of qty 3, reconciliation rewrites the
original return record's `quantidade` in place from 3 to 2 (a field other
than `loan_id`). -/
theorem C7_counterexample :
    ((rowById dbPartial.movs 2).map (fun m => m.quantidade) = some 3) ∧
    ((rowById (migrate_link_old_returns dbPartial).movs 2).map
        (fun m => m.quantidade) = some 2) := by
  refine ⟨by decide, by decide⟩

-- ---------------------------------------------------------------------------
-- Helper lemmas: sameCore, mkRows, drain, amt, linkedSum
-- ---------------------------------------------------------------------------

theorem sameCore_iff {m m0 : Mov} : sameCore m m0 ↔
    (m.id = m0.id ∧ m.timestamp = m0.timestamp ∧ m.data = m0.data ∧ m.hora = m0.hora ∧
     m.tipo = m0.tipo ∧ m.item_nome = m0.item_nome ∧ m.categoria = m0.categoria ∧
     m.aluno_nome = m0.aluno_nome ∧ m.aluno_sobrenome = m0.aluno_sobrenome ∧
     m.aluno_serie = m0.aluno_serie ∧ m.responsavel = m0.responsavel ∧
     m.prev_devolucao = m0.prev_devolucao ∧ m.observacoes = m0.observacoes ∧
     m.beneficiario_tipo = m0.beneficiario_tipo ∧ m.beneficiario_nome = m0.beneficiario_nome ∧
     m.loan_id = m0.loan_id) := by
  cases m; cases m0
  simp only [sameCore, Mov.mk.injEq]
  tauto

theorem sameCore_refl (m : Mov) : sameCore m m := by cases m; rfl

theorem sameCore_trans {a b c : Mov} (h1 : sameCore a b) (h2 : sameCore b c) :
    sameCore a c := by
  rw [sameCore_iff] at *
  obtain ⟨a1,a2,a3,a4,a5,a6,a7,a8,a9,a10,a11,a12,a13,a14,a15,a16⟩ := h1
  obtain ⟨b1,b2,b3,b4,b5,b6,b7,b8,b9,b10,b11,b12,b13,b14,b15,b16⟩ := h2
  exact ⟨a1.trans b1, a2.trans b2, a3.trans b3, a4.trans b4, a5.trans b5, a6.trans b6,
    a7.trans b7, a8.trans b8, a9.trans b9, a10.trans b10, a11.trans b11, a12.trans b12,
    a13.trans b13, a14.trans b14, a15.trans b15, a16.trans b16⟩

theorem sameCore_update_qty (x : Mov) (q : Int) :
    sameCore ({ x with quantidade := q }) x := by
  cases x; rfl

theorem mkRows_length (d : Mov) : ∀ (n : Nat) (al : List (Nat × Int)),
    (mkRows d n al).length = al.length := by
  intro n al
  induction al generalizing n with
  | nil => rfl
  | cons p rest ih => simp [mkRows, ih]

theorem mkRows_mem (d : Mov) : ∀ (n : Nat) (al : List (Nat × Int)), ∀ m ∈ mkRows d n al,
    n ≤ m.id ∧ m.id < n + al.length ∧ ∃ p ∈ al, m = mkLinkedRow d m.id p.1 p.2 := by
  intro n al
  induction al generalizing n with
  | nil => intro m hm; simp [mkRows] at hm
  | cons p rest ih =>
    intro m hm
    simp only [mkRows, List.mem_cons] at hm
    rcases hm with rfl | hm
    · refine ⟨le_refl _, by simp [mkLinkedRow], p, by simp, ?_⟩
      simp [mkLinkedRow]
    · obtain ⟨h1, h2, p', hp', hm'⟩ := ih (n + 1) m hm
      exact ⟨by omega, by simp; omega, p', by simp [hp'], hm'⟩

theorem mkRows_row_props (d : Mov) (n : Nat) (al : List (Nat × Int)) :
    ∀ m ∈ mkRows d n al, m.tipo = "Devolucao" ∧ ∃ p ∈ al, m.loan_id = p.1 := by
  intro m hm
  obtain ⟨-, -, p, hp, heq⟩ := mkRows_mem d n al m hm
  exact ⟨congrArg Mov.tipo heq, p, hp, congrArg Mov.loan_id heq⟩

theorem amt_nil (i : Nat) : amt [] i = 0 := rfl

theorem amt_cons (p : Nat × Int) (al : List (Nat × Int)) (i : Nat) :
    amt (p :: al) i = (if p.1 = i then p.2 else 0) + amt al i := by
  by_cases h : p.1 = i <;> simp [amt, List.filter_cons, h]

theorem amt_eq_zero {al : List (Nat × Int)} {i : Nat} (h : ∀ p ∈ al, p.1 ≠ i) :
    amt al i = 0 := by
  induction al with
  | nil => rfl
  | cons p rest ih =>
    rw [amt_cons, ih (fun p' hp' => h p' (by simp [hp']))]
    simp [h p (by simp)]

theorem drain_alloc_mem (fila : List Bucket) : ∀ (r : Int),
    ∀ p ∈ (drain r fila).1, (∃ b ∈ fila, p.1 = b.id) ∧ 0 < p.2 := by
  induction fila with
  | nil => intro r p hp; simp [drain] at hp
  | cons b bs ih =>
    intro r p hp
    unfold drain at hp
    by_cases h1 : r ≤ 0
    · simp [h1] at hp
    · by_cases h2 : b.disp ≤ 0
      · simp only [if_neg h1, if_pos h2] at hp
        obtain ⟨⟨b', hb', he⟩, hq⟩ := ih r p hp
        exact ⟨⟨b', by simp [hb'], he⟩, hq⟩
      · simp only [if_neg h1, if_neg h2, List.mem_cons] at hp
        rcases hp with rfl | hp
        · exact ⟨⟨b, by simp, rfl⟩, by simp; omega⟩
        · obtain ⟨⟨b', hb', he⟩, hq⟩ := ih _ p hp
          exact ⟨⟨b', by simp [hb'], he⟩, hq⟩

theorem drain_fila_ids (fila : List Bucket) : ∀ (r : Int),
    ((drain r fila).2.1).map Bucket.id = fila.map Bucket.id := by
  induction fila with
  | nil => intro r; rfl
  | cons b bs ih =>
    intro r
    unfold drain
    by_cases h1 : r ≤ 0
    · simp [h1]
    · by_cases h2 : b.disp ≤ 0
      · simp [h1, h2, ih]
      · simp [h1, h2, ih]

theorem drain_leftover (fila : List Bucket) : ∀ (r : Int),
    0 < (drain r fila).2.2 → ∀ b' ∈ (drain r fila).2.1, b'.disp ≤ 0 := by
  induction fila with
  | nil => intro r _ b' hb'; simp [drain] at hb'
  | cons b bs ih =>
    intro r hr b' hb'
    unfold drain at hr hb'
    by_cases h1 : r ≤ 0
    · simp [h1] at hr hb'
      omega
    · by_cases h2 : b.disp ≤ 0
      · simp only [if_neg h1, if_pos h2, List.mem_cons] at hr hb'
        rcases hb' with rfl | hb'
        · exact h2
        · exact ih r hr b' hb'
      · simp only [if_neg h1, if_neg h2, List.mem_cons] at hr hb'
        rcases hb' with rfl | hb'
        · -- leftover positive forces min r b.disp = b.disp
          have hmin : min r b.disp = b.disp := by
            rcases le_or_lt b.disp r with h | h
            · exact min_eq_right h
            · exfalso
              have : min r b.disp = r := min_eq_left (le_of_lt h)
              rw [this] at hr
              have : drain (r - r) bs = ([], bs, r - r) := by
                have : r - r ≤ 0 := by omega
                cases bs with
                | nil => simp [drain]
                | cons c cs => simp [drain, this]
              rw [this] at hr
              simp at hr
          simp [hmin]
        · exact ih _ hr b' hb'

theorem forall2_imp_mem {α β : Type} {R S : α → β → Prop} :
    ∀ {l1 : List α} {l2 : List β}, List.Forall₂ R l1 l2 →
      (∀ x ∈ l1, ∀ y, R x y → S x y) → List.Forall₂ S l1 l2 := by
  intro l1 l2 h himp
  induction h with
  | nil => exact List.Forall₂.nil
  | cons hxy htail ih =>
    exact List.Forall₂.cons (himp _ (by simp) _ hxy)
      (ih (fun x hx y hr => himp x (by simp [hx]) y hr))

theorem drain_spec (fila : List Bucket) :
    ∀ (r : Int), (fila.map Bucket.id).Nodup →
    List.Forall₂ (fun b b' : Bucket => b'.id = b.id ∧
      b'.disp = b.disp - amt (drain r fila).1 b.id) fila (drain r fila).2.1 := by
  induction fila with
  | nil => intro r _; simp [drain]
  | cons b bs ih =>
    intro r hnd
    have hnd' : (bs.map Bucket.id).Nodup := (List.nodup_cons.1 hnd).2
    have hbn : b.id ∉ bs.map Bucket.id := (List.nodup_cons.1 hnd).1
    unfold drain
    by_cases h1 : r ≤ 0
    · simp only [if_pos h1]
      refine List.forall₂_cons.2 ⟨⟨rfl, by simp [amt_nil]⟩, ?_⟩
      -- remaining buckets unchanged with empty allocation list
      clear ih hnd hnd' hbn
      induction bs with
      | nil => simp
      | cons c cs ihc => exact List.forall₂_cons.2 ⟨⟨rfl, by simp [amt_nil]⟩, ihc⟩
    · by_cases h2 : b.disp ≤ 0
      · simp only [if_neg h1, if_pos h2]
        refine List.forall₂_cons.2 ⟨⟨rfl, ?_⟩, ?_⟩
        · -- b takes no allocation: its id is not among the tail allocations
          have : amt (drain r bs).1 b.id = 0 := by
            refine amt_eq_zero (fun p hp => ?_)
            obtain ⟨⟨b', hb', he⟩, -⟩ := drain_alloc_mem bs r p hp
            intro hcon
            exact hbn (by rw [← hcon, he]; exact List.mem_map_of_mem Bucket.id hb')
          rw [this]; ring
        · exact ih r hnd'
      · simp only [if_neg h1, if_neg h2]
        have hq : amt ((b.id, min r b.disp) :: (drain (r - min r b.disp) bs).1) b.id
            = min r b.disp := by
          rw [amt_cons]
          have : amt (drain (r - min r b.disp) bs).1 b.id = 0 := by
            refine amt_eq_zero (fun p hp => ?_)
            obtain ⟨⟨b', hb', he⟩, -⟩ := drain_alloc_mem bs _ p hp
            intro hcon
            exact hbn (by rw [← hcon, he]; exact List.mem_map_of_mem Bucket.id hb')
          rw [this]
          simp
        refine List.forall₂_cons.2 ⟨⟨rfl, by rw [hq]⟩, ?_⟩
        -- tail: the head allocation goes to b.id, which is not a tail bucket id
        have htail := ih (r - min r b.disp) hnd'
        refine forall2_imp_mem htail (fun x hx y hr => ⟨hr.1, ?_⟩)
        have hne : ¬ b.id = x.id := fun hcon =>
          hbn (hcon ▸ List.mem_map_of_mem Bucket.id hx)
        rw [amt_cons]
        simp only [hne, if_neg, ite_false]
        rw [zero_add]
        exact hr.2

-- ---------------------------------------------------------------------------
-- Helper lemmas: linkedSum, processDev provenance, selfLinkF
-- ---------------------------------------------------------------------------

theorem linkedSum_cons (m : Mov) (l : List Mov) (lid : Nat) :
    linkedSum (m :: l) lid =
      (if (isDev m.tipo && m.loan_id == lid : Bool) then m.quantidade else 0) +
        linkedSum l lid := by
  by_cases h : (isDev m.tipo && m.loan_id == lid : Bool) <;>
    simp [linkedSum, List.filter_cons, h]

theorem linkedSum_append (l l' : List Mov) (lid : Nat) :
    linkedSum (l ++ l') lid = linkedSum l lid + linkedSum l' lid := by
  induction l with
  | nil => simp [linkedSum]
  | cons m l ih => rw [List.cons_append, linkedSum_cons, linkedSum_cons, ih]; ring

theorem linkedSum_mkRows (d : Mov) : ∀ (n : Nat) (al : List (Nat × Int)) (lid : Nat),
    linkedSum (mkRows d n al) lid = amt al lid := by
  intro n al
  induction al generalizing n with
  | nil => intro lid; rfl
  | cons p rest ih =>
    intro lid
    have hdev : isDev "Devolucao" = true := rfl
    rw [mkRows, linkedSum_cons, ih (n + 1) lid, amt_cons]
    congr 1
    by_cases h : p.1 = lid <;> simp [mkLinkedRow, h, hdev]

theorem linkedSum_map_update (l : List Mov) (did : Nat) (rest : Int) (lid : Nat)
    (hlid : lid ≠ 0) (hl : ∀ m ∈ l, m.id = did → m.loan_id = 0) :
    linkedSum (l.map (fun m => if m.id = did then { m with quantidade := rest } else m)) lid
      = linkedSum l lid := by
  induction l with
  | nil => rfl
  | cons m l ih =>
    rw [List.map_cons, linkedSum_cons, linkedSum_cons,
      ih (fun m' hm' h' => hl m' (List.mem_cons_of_mem m hm') h')]
    congr 1
    by_cases h : m.id = did
    · have hm0 : m.loan_id = 0 := hl m (List.mem_cons_self m l) h
      simp [h, hm0, Ne.symm hlid]
    · simp [h]

theorem linkedSum_filter_ne (l : List Mov) (did lid : Nat) (hlid : lid ≠ 0)
    (hl : ∀ m ∈ l, m.id = did → m.loan_id = 0) :
    linkedSum (l.filter (fun m => m.id ≠ did)) lid = linkedSum l lid := by
  induction l with
  | nil => rfl
  | cons m l ih =>
    have ih' := ih (fun m' hm' h' => hl m' (List.mem_cons_of_mem m hm') h')
    rw [List.filter_cons]
    by_cases h : m.id = did
    · have hm0 : m.loan_id = 0 := hl m (List.mem_cons_self m l) h
      have hf : (decide (m.id ≠ did)) = false := by simp [h]
      rw [hf]
      simp only [Bool.false_eq_true, if_neg, if_false]
      rw [ih', linkedSum_cons]
      have : (isDev m.tipo && m.loan_id == lid : Bool) = false := by
        simp [hm0, Ne.symm hlid]
      rw [this]
      simp
    · have hf : (decide (m.id ≠ did)) = true := by simp [h]
      rw [hf]
      simp only [if_pos]
      rw [linkedSum_cons, linkedSum_cons, ih']

theorem sameCore_id {a b : Mov} (h : sameCore a b) : a.id = b.id :=
  (sameCore_iff.1 h).1

theorem sameCore_tipo {a b : Mov} (h : sameCore a b) : a.tipo = b.tipo :=
  (sameCore_iff.1 h).2.2.2.2.1

theorem sameCore_loan {a b : Mov} (h : sameCore a b) : a.loan_id = b.loan_id :=
  (sameCore_iff.1 h).2.2.2.2.2.2.2.2.2.2.2.2.2.2.2

theorem processDev_nextId_le (st : DB × (MKey → List Bucket)) (d : Mov) :
    st.1.nextId ≤ (processDev st d).1.nextId := by
  unfold processDev
  by_cases h : (st.2 (movKey d)).isEmpty
  · simp [h]
  · simp only [h, Bool.false_eq_true, if_neg, if_false]
    omega

theorem processDev_prov (st : DB × (MKey → List Bucket)) (d : Mov) :
    ∀ m ∈ (processDev st d).1.movs,
      (∃ m0 ∈ st.1.movs, sameCore m m0 ∧ (m.quantidade = m0.quantidade ∨ m.id = d.id)) ∨
      (st.1.nextId ≤ m.id ∧ m.tipo = "Devolucao" ∧
        ∃ b ∈ st.2 (movKey d), m.loan_id = b.id) := by
  intro m hm
  unfold processDev at hm
  by_cases hfe : (st.2 (movKey d)).isEmpty
  · simp only [hfe, if_pos] at hm
    exact Or.inl ⟨m, hm, sameCore_refl m, Or.inl rfl⟩
  · simp only [hfe, Bool.false_eq_true, if_neg, if_false] at hm
    by_cases hrest : (drain d.quantidade (st.2 (movKey d))).2.2 ≤ 0
    · rw [if_pos hrest] at hm
      have hm' := (List.mem_filter.1 hm).1
      rcases List.mem_append.1 hm' with hm0 | hins
      · exact Or.inl ⟨m, hm0, sameCore_refl m, Or.inl rfl⟩
      · obtain ⟨hge, -, -⟩ := mkRows_mem d st.1.nextId _ m hins
        obtain ⟨htip, p, hp, hloan⟩ := mkRows_row_props d st.1.nextId _ m hins
        obtain ⟨⟨b, hb, he⟩, -⟩ := drain_alloc_mem (st.2 (movKey d)) d.quantidade p hp
        exact Or.inr ⟨hge, htip, b, hb, by rw [hloan, he]⟩
    · rw [if_neg hrest] at hm
      rcases List.mem_map.1 hm with ⟨x, hx, rfl⟩
      rcases List.mem_append.1 hx with hx0 | hins
      · by_cases hid : x.id = d.id
        · rw [if_pos hid]
          refine Or.inl ⟨x, hx0, sameCore_update_qty x _, Or.inr ?_⟩
          show ({ x with quantidade := _ } : Mov).id = d.id
          simpa using hid
        · rw [if_neg hid]
          exact Or.inl ⟨x, hx0, sameCore_refl x, Or.inl rfl⟩
      · obtain ⟨hge, -, -⟩ := mkRows_mem d st.1.nextId _ x hins
        obtain ⟨htip, p, hp, hloan⟩ := mkRows_row_props d st.1.nextId _ x hins
        obtain ⟨⟨b, hb, he⟩, -⟩ := drain_alloc_mem (st.2 (movKey d)) d.quantidade p hp
        by_cases hid : x.id = d.id
        · rw [if_pos hid]
          exact Or.inr ⟨hge, htip, b, hb, by rw [hloan, he]⟩
        · rw [if_neg hid]
          exact Or.inr ⟨hge, htip, b, hb, by rw [hloan, he]⟩

theorem processDev_fifo_ids (st : DB × (MKey → List Bucket)) (d : Mov) :
    ∀ k, ∀ b' ∈ (processDev st d).2 k, ∃ b ∈ st.2 k, b'.id = b.id := by
  intro k b' hb'
  unfold processDev at hb'
  by_cases hfe : (st.2 (movKey d)).isEmpty
  · simp only [hfe, if_pos] at hb'
    exact ⟨b', hb', rfl⟩
  · simp only [hfe, Bool.false_eq_true, if_neg, if_false] at hb'
    by_cases hk : k = movKey d
    · rw [if_pos hk] at hb'
      have hids := drain_fila_ids (st.2 (movKey d)) d.quantidade
      have : b'.id ∈ (st.2 (movKey d)).map Bucket.id := by
        rw [← hids]
        exact List.mem_map_of_mem Bucket.id hb'
      rcases List.mem_map.1 this with ⟨b, hb, he⟩
      exact ⟨b, hk ▸ hb, he.symm⟩
    · rw [if_neg hk] at hb'
      exact ⟨b', hb', rfl⟩

theorem foldl_processDev_nextId_le (devs : List Mov) :
    ∀ st : DB × (MKey → List Bucket),
      st.1.nextId ≤ (devs.foldl processDev st).1.nextId := by
  induction devs with
  | nil => intro st; exact le_refl _
  | cons d devs ih =>
    intro st
    exact le_trans (processDev_nextId_le st d) (ih (processDev st d))

theorem foldl_processDev_prov (P : Nat → Prop) :
    ∀ (devs : List Mov) (st : DB × (MKey → List Bucket)),
      (∀ k, ∀ b ∈ st.2 k, P b.id) →
      ∀ m ∈ (devs.foldl processDev st).1.movs,
        (∃ m0 ∈ st.1.movs, sameCore m m0 ∧
           (m.quantidade = m0.quantidade ∨ ∃ d ∈ devs, m.id = d.id)) ∨
        (st.1.nextId ≤ m.id ∧ m.tipo = "Devolucao" ∧ P m.loan_id) := by
  intro devs
  induction devs with
  | nil =>
    intro st _ m hm
    exact Or.inl ⟨m, hm, sameCore_refl m, Or.inl rfl⟩
  | cons d devs ih =>
    intro st hP m hm
    rw [List.foldl_cons] at hm
    have hP' : ∀ k, ∀ b ∈ (processDev st d).2 k, P b.id := by
      intro k b hb
      obtain ⟨b0, hb0, he⟩ := processDev_fifo_ids st d k b hb
      exact he ▸ hP k b0 hb0
    rcases ih (processDev st d) hP' m hm with ⟨m1, hm1, hc1, hq1⟩ | ⟨hn, ht, hp⟩
    · rcases processDev_prov st d m1 hm1 with ⟨m0, hm0, hc0, hq0⟩ | ⟨hn0, ht0, b, hb, he⟩
      · refine Or.inl ⟨m0, hm0, sameCore_trans hc1 hc0, ?_⟩
        rcases hq1 with hq1 | ⟨d', hd', he'⟩
        · rcases hq0 with hq0 | hq0
          · exact Or.inl (hq1.trans hq0)
          · exact Or.inr ⟨d, List.mem_cons_self d devs, (sameCore_id hc1).trans hq0⟩
        · exact Or.inr ⟨d', List.mem_cons_of_mem d hd', he'⟩
      · exact Or.inr ⟨(sameCore_id hc1) ▸ hn0, (sameCore_tipo hc1).trans ht0,
          (sameCore_loan hc1) ▸ (he ▸ hP (movKey d) b hb)⟩
    · exact Or.inr ⟨le_trans (processDev_nextId_le st d) hn, ht, hp⟩

theorem selfLinkF_id (m : Mov) : (selfLinkF m).id = m.id := by
  unfold selfLinkF; split <;> rfl

theorem selfLinkF_tipo (m : Mov) : (selfLinkF m).tipo = m.tipo := by
  unfold selfLinkF; split <;> rfl

theorem selfLinkF_quantidade (m : Mov) : (selfLinkF m).quantidade = m.quantidade := by
  unfold selfLinkF; split <;> rfl

theorem selfLinkF_of_not {m : Mov} (h : ¬(isEmp m.tipo = true ∧ m.loan_id = 0)) :
    selfLinkF m = m := by
  unfold selfLinkF
  exact if_neg h

theorem selfLinkF_cases (m : Mov) :
    selfLinkF m = m ∨
      (isEmp m.tipo = true ∧ m.loan_id = 0 ∧ selfLinkF m = { m with loan_id := m.id }) := by
  unfold selfLinkF
  by_cases h : isEmp m.tipo = true ∧ m.loan_id = 0
  · exact Or.inr ⟨h.1, h.2, if_pos h⟩
  · exact Or.inl (if_neg h)

theorem mem_id_inj {l : List Mov} (hnd : (l.map (fun m => m.id)).Nodup)
    {a b : Mov} (ha : a ∈ l) (hb : b ∈ l) (he : a.id = b.id) : a = b :=
  List.inj_on_of_nodup_map hnd ha hb he

theorem selfLinked_ids (db : DB) :
    ((selfLinked db).movs.map (fun m => m.id)) = db.movs.map (fun m => m.id) := by
  show ((db.movs.map selfLinkF).map (fun m => m.id)) = _
  rw [List.map_map]
  exact List.map_congr_left (fun m _ => selfLinkF_id m)

theorem WF_selfLinked {db : DB} (hwf : WF db) : WF (selfLinked db) := by
  obtain ⟨hbound, hnd⟩ := hwf
  constructor
  · intro m hm
    rcases List.mem_map.1 hm with ⟨m0, hm0, rfl⟩
    rw [selfLinkF_id]
    exact hbound m0 hm0
  · rw [selfLinked_ids]
    exact hnd

theorem devsOf_mem {l : List Mov} {d : Mov} (h : d ∈ devsOf l) :
    d ∈ l ∧ isDev d.tipo = true ∧ d.loan_id = 0 := by
  unfold devsOf sortByTs at h
  rw [List.mem_insertionSort] at h
  have h' := List.mem_filter.1 h
  have hb := h'.2
  simp only [Bool.and_eq_true, beq_iff_eq] at hb
  exact ⟨h'.1, hb.1, hb.2⟩

theorem empsOf_mem {l : List Mov} {e : Mov} (h : e ∈ empsOf l) :
    e ∈ l ∧ isEmp e.tipo = true := by
  unfold empsOf sortByTs at h
  rw [List.mem_insertionSort] at h
  have h' := List.mem_filter.1 h
  exact ⟨h'.1, h'.2⟩

/-- Shared provenance fact: every row of the migrated store whose id is an
original id descends from a unique original row; all its fields agree with
the original after the loan self-link, except that its quantity may differ
exactly when the original was an unlinked return. -/
theorem migrate_originals (db : DB) (hwf : WF db) :
    ∀ m ∈ (migrate_link_old_returns db).movs, m.id < db.nextId →
      ∃ m0 ∈ db.movs, m0.id = m.id ∧ sameCore m (selfLinkF m0) ∧
        (m.quantidade = m0.quantidade ∨ (isDev m0.tipo = true ∧ m0.loan_id = 0)) := by
  intro m hm hlt
  unfold migrate_link_old_returns at hm
  by_cases hemp : (empsOf (selfLinked db).movs).isEmpty
  · simp only [hemp, if_pos] at hm
    rcases List.mem_map.1 hm with ⟨m0, hm0, rfl⟩
    exact ⟨m0, hm0, (selfLinkF_id m0).symm, sameCore_refl _,
      Or.inl (selfLinkF_quantidade m0)⟩
  · simp only [hemp, Bool.false_eq_true, if_neg, if_false] at hm
    have hprov := foldl_processDev_prov (fun _ => True) (devsOf (selfLinked db).movs)
      (selfLinked db, buildFifo (empsOf (selfLinked db).movs) (selfLinked db).movs)
      (fun _ _ _ => trivial) m hm
    rcases hprov with ⟨m1, hm1, hc, hq⟩ | ⟨hn, -, -⟩
    · rcases List.mem_map.1 hm1 with ⟨m0, hm0, rfl⟩
      refine ⟨m0, hm0, ?_, hc, ?_⟩
      · exact ((sameCore_id hc).trans (selfLinkF_id m0)).symm
      · rcases hq with hq | ⟨d', hd', he'⟩
        · exact Or.inl (hq.trans (selfLinkF_quantidade m0))
        · obtain ⟨hd'mem, hd'dev, hd'loan⟩ := devsOf_mem hd'
          have hnd1 : ((selfLinked db).movs.map (fun m => m.id)).Nodup := by
            rw [selfLinked_ids]; exact hwf.2
          have hdm1 : d' = selfLinkF m0 := by
            refine mem_id_inj hnd1 hd'mem hm1 ?_
            rw [← he', sameCore_id hc]
          right
          have htipo : isDev m0.tipo = true := by
            rw [← selfLinkF_tipo m0, ← hdm1]; exact hd'dev
          refine ⟨htipo, ?_⟩
          rcases selfLinkF_cases m0 with hid | ⟨hemp0, -, -⟩
          · rw [← hid, ← hdm1]; exact hd'loan
          · exact absurd hemp0 (by simp [isEmp_isDev_disjoint m0.tipo htipo])
    · exfalso
      have hle : db.nextId ≤ m.id := hn
      omega

/-- C6 (amended): the reconciliation job never sets `loan_id` in place on an
original return record: any surviving row with an original unlinked return's
id is still unlinked (`loan_id = 0`) and still has the original kind, item
and timestamp (only its quantity may have been reduced, or the row deleted);
linked Return rows are always newly inserted records. -/
theorem C6_theorem (db : DB) (hwf : WF db) :
    ∀ d ∈ db.movs, isDev d.tipo = true → d.loan_id = 0 →
      ∀ m ∈ (migrate_link_old_returns db).movs, m.id = d.id →
        m.loan_id = 0 ∧ m.tipo = d.tipo ∧ m.item_nome = d.item_nome ∧
        m.timestamp = d.timestamp := by
  intro d hd hdev hloan m hm hid
  have hlt : m.id < db.nextId := hid ▸ (hwf.1 d hd).2
  obtain ⟨m0, hm0, hid0, hc, -⟩ := migrate_originals db hwf m hm hlt
  have hde : m0 = d := mem_id_inj hwf.2 hm0 hd (by rw [hid0, hid])
  subst hde
  have hsl : selfLinkF m0 = m0 := selfLinkF_of_not (by
    intro hcon
    rw [isEmp_isDev_disjoint _ hdev] at hcon
    exact Bool.false_ne_true hcon.1)
  rw [hsl] at hc
  exact ⟨(sameCore_loan hc).trans hloan, sameCore_tipo hc,
    (sameCore_iff.1 hc).2.2.2.2.2.1, (sameCore_iff.1 hc).2.1⟩

/-- C6 witness: the amended theorem at the concrete partial-absorption
scenario (`dbPartial`). -/
theorem C6_witness :
    WF dbPartial ∧
    (∀ d ∈ dbPartial.movs, isDev d.tipo = true → d.loan_id = 0 →
      ∀ m ∈ (migrate_link_old_returns dbPartial).movs, m.id = d.id →
        m.loan_id = 0 ∧ m.tipo = d.tipo ∧ m.item_nome = d.item_nome ∧
        m.timestamp = d.timestamp) :=
  ⟨by decide, C6_theorem dbPartial (by decide)⟩

/-- C7 (amended): after reconciliation, every surviving row with an original
id still carries the original kind, item, timestamp, date/time strings and
borrower fields; `loan_id` changed at most once, from 0 to the row's own id
on a Loan (the self-link); however the quantity may differ — and only for an
originally unlinked Return (the in-place leftover rewrite). -/
theorem C7_theorem (db : DB) (hwf : WF db) :
    ∀ m ∈ (migrate_link_old_returns db).movs, m.id < db.nextId →
      ∃ m0 ∈ db.movs, m0.id = m.id ∧ m.tipo = m0.tipo ∧ m.item_nome = m0.item_nome ∧
        m.timestamp = m0.timestamp ∧ m.data = m0.data ∧ m.hora = m0.hora ∧
        m.aluno_nome = m0.aluno_nome ∧ m.aluno_sobrenome = m0.aluno_sobrenome ∧
        m.aluno_serie = m0.aluno_serie ∧ m.beneficiario_tipo = m0.beneficiario_tipo ∧
        m.beneficiario_nome = m0.beneficiario_nome ∧
        (m.loan_id = m0.loan_id ∨
          (isEmp m0.tipo = true ∧ m0.loan_id = 0 ∧ m.loan_id = m0.id)) ∧
        (m.quantidade = m0.quantidade ∨ (isDev m0.tipo = true ∧ m0.loan_id = 0)) := by
  intro m hm hlt
  obtain ⟨m0, hm0, hid0, hc, hq⟩ := migrate_originals db hwf m hm hlt
  rcases selfLinkF_cases m0 with hsl | ⟨hempt, hl0, hsl⟩
  · rw [hsl] at hc
    obtain ⟨e1,e2,e3,e4,e5,e6,e7,e8,e9,e10,e11,e12,e13,e14,e15,e16⟩ := sameCore_iff.1 hc
    exact ⟨m0, hm0, hid0, e5, e6, e2, e3, e4, e8, e9, e10, e14, e15, Or.inl e16, hq⟩
  · rw [hsl] at hc
    obtain ⟨e1,e2,e3,e4,e5,e6,e7,e8,e9,e10,e11,e12,e13,e14,e15,e16⟩ := sameCore_iff.1 hc
    exact ⟨m0, hm0, hid0, e5, e6, e2, e3, e4, e8, e9, e10, e14, e15,
      Or.inr ⟨hempt, hl0, e16⟩, hq⟩

/-- C7 witness: the amended theorem at the concrete partial-absorption
scenario (`dbPartial`). -/
theorem C7_witness :
    WF dbPartial ∧
    (∀ m ∈ (migrate_link_old_returns dbPartial).movs, m.id < dbPartial.nextId →
      ∃ m0 ∈ dbPartial.movs, m0.id = m.id ∧ m.tipo = m0.tipo ∧
        m.item_nome = m0.item_nome ∧ m.timestamp = m0.timestamp ∧ m.data = m0.data ∧
        m.hora = m0.hora ∧ m.aluno_nome = m0.aluno_nome ∧
        m.aluno_sobrenome = m0.aluno_sobrenome ∧ m.aluno_serie = m0.aluno_serie ∧
        m.beneficiario_tipo = m0.beneficiario_tipo ∧
        m.beneficiario_nome = m0.beneficiario_nome ∧
        (m.loan_id = m0.loan_id ∨
          (isEmp m0.tipo = true ∧ m0.loan_id = 0 ∧ m.loan_id = m0.id)) ∧
        (m.quantidade = m0.quantidade ∨ (isDev m0.tipo = true ∧ m0.loan_id = 0))) :=
  ⟨by decide, C7_theorem dbPartial (by decide)⟩

-- ---------------------------------------------------------------------------
-- Helper lemmas: Forall₂ membership, buildFifo, no-op runs
-- ---------------------------------------------------------------------------

theorem forall2_mem_right {α β : Type} {R : α → β → Prop} :
    ∀ {l1 : List α} {l2 : List β}, List.Forall₂ R l1 l2 →
      ∀ y ∈ l2, ∃ x ∈ l1, R x y := by
  intro l1 l2 h
  induction h with
  | nil => intro y hy; simp at hy
  | cons hxy htail ih =>
    intro y hy
    rcases List.mem_cons.1 hy with rfl | hy
    · exact ⟨_, List.mem_cons_self .., hxy⟩
    · obtain ⟨x, hx, hr⟩ := ih y hy
      exact ⟨x, List.mem_cons_of_mem _ hx, hr⟩

theorem forall2_mem_left {α β : Type} {R : α → β → Prop} :
    ∀ {l1 : List α} {l2 : List β}, List.Forall₂ R l1 l2 →
      ∀ x ∈ l1, ∃ y ∈ l2, R x y := by
  intro l1 l2 h
  induction h with
  | nil => intro x hx; simp at hx
  | cons hxy htail ih =>
    intro x hx
    rcases List.mem_cons.1 hx with rfl | hx
    · exact ⟨_, List.mem_cons_self .., hxy⟩
    · obtain ⟨y, hy, hr⟩ := ih x hx
      exact ⟨y, List.mem_cons_of_mem _ hy, hr⟩

theorem buildStep_mono (all : List Mov) (f : MKey → List Bucket) (e : Mov) (k : MKey) :
    ∀ b ∈ f k, b ∈ buildStep all f e k := by
  intro b hb
  unfold buildStep
  by_cases h : e.quantidade - linkedSum all e.id ≤ 0
  · simpa [h] using hb
  · simp only [h, if_neg, if_false]
    by_cases hk : k = movKey e
    · subst hk
      simp [hb]
    · simp [hk, hb]

theorem foldl_buildStep_mono (all : List Mov) :
    ∀ (emps : List Mov) (f0 : MKey → List Bucket) (k : MKey) (b : Bucket),
      b ∈ f0 k → b ∈ (emps.foldl (buildStep all) f0) k := by
  intro emps
  induction emps with
  | nil => intro f0 k b hb; exact hb
  | cons e emps ih =>
    intro f0 k b hb
    exact ih (buildStep all f0 e) k b (buildStep_mono all f0 e k b hb)

theorem foldl_buildStep_nil_of (all : List Mov) (k : MKey) :
    ∀ (emps : List Mov) (f0 : MKey → List Bucket),
      (∀ e ∈ emps, movKey e = k → e.quantidade - linkedSum all e.id ≤ 0) →
      f0 k = [] →
      (emps.foldl (buildStep all) f0) k = [] := by
  intro emps
  induction emps with
  | nil => intro f0 _ h0; exact h0
  | cons e emps ih =>
    intro f0 h h0
    refine ih (buildStep all f0 e) (fun e' he' hk => h e' (List.mem_cons_of_mem e he') hk) ?_
    unfold buildStep
    by_cases hd : e.quantidade - linkedSum all e.id ≤ 0
    · simpa [hd] using h0
    · simp only [hd, if_neg, if_false]
      have hk : ¬ k = movKey e := fun hcon => hd (h e (List.mem_cons_self e emps) hcon.symm)
      simp [hk, h0]

theorem foldl_buildStep_pres (all : List Mov) (P : Bucket → MKey → Prop) :
    ∀ (emps : List Mov) (f0 : MKey → List Bucket),
      (∀ k, ∀ b ∈ f0 k, P b k) →
      (∀ e ∈ emps, 0 < e.quantidade - linkedSum all e.id →
        P { id := e.id, disp := e.quantidade - linkedSum all e.id } (movKey e)) →
      ∀ k, ∀ b ∈ (emps.foldl (buildStep all) f0) k, P b k := by
  intro emps
  induction emps with
  | nil => intro f0 h0 _ k b hb; exact h0 k b hb
  | cons e emps ih =>
    intro f0 h0 hP k b hb
    refine ih (buildStep all f0 e) ?_ (fun e' he' => hP e' (List.mem_cons_of_mem e he')) k b hb
    intro k' b' hb'
    unfold buildStep at hb'
    by_cases hd : e.quantidade - linkedSum all e.id ≤ 0
    · rw [if_pos hd] at hb'
      exact h0 k' b' hb'
    · rw [if_neg hd] at hb'
      by_cases hk : k' = movKey e
      · subst hk
        simp only [if_pos] at hb'
        rcases List.mem_append.1 hb' with hb0 | hnew
        · exact h0 _ b' hb0
        · have : b' = { id := e.id, disp := e.quantidade - linkedSum all e.id } := by
            simpa using hnew
          rw [this]
          exact hP e (List.mem_cons_self e emps) (by omega)
      · rw [if_neg hk] at hb'
        exact h0 k' b' hb'

theorem foldl_buildStep_cov (all : List Mov) :
    ∀ (emps : List Mov) (f0 : MKey → List Bucket),
      ∀ e ∈ emps, 0 < e.quantidade - linkedSum all e.id →
        ∃ b ∈ (emps.foldl (buildStep all) f0) (movKey e), b.id = e.id := by
  intro emps
  induction emps with
  | nil => intro f0 e he; simp at he
  | cons e0 emps ih =>
    intro f0 e he hpos
    rcases List.mem_cons.1 he with rfl | he
    · refine ⟨{ id := e.id, disp := e.quantidade - linkedSum all e.id },
        foldl_buildStep_mono all emps _ _ _ ?_, rfl⟩
      unfold buildStep
      rw [if_neg (by omega)]
      simp
    · exact ih (buildStep all f0 e0) e he hpos

theorem foldl_buildStep_nodup (all : List Mov) :
    ∀ (emps : List Mov) (f0 : MKey → List Bucket),
      (∀ k, ((f0 k).map (fun b => b.id)).Nodup) →
      (∀ k, ∀ b ∈ f0 k, ∀ e ∈ emps, b.id ≠ e.id) →
      ((emps.map (fun m => m.id)).Nodup) →
      ∀ k, (((emps.foldl (buildStep all) f0) k).map (fun b => b.id)).Nodup := by
  intro emps
  induction emps with
  | nil => intro f0 h0 _ _ k; exact h0 k
  | cons e emps ih =>
    intro f0 h0 havoid hnd k
    have hnd' : (emps.map (fun m => m.id)).Nodup := (List.nodup_cons.1 hnd).2
    have hene : e.id ∉ emps.map (fun m => m.id) := (List.nodup_cons.1 hnd).1
    refine ih (buildStep all f0 e) ?_ ?_ hnd' k
    · intro k'
      unfold buildStep
      by_cases hd : e.quantidade - linkedSum all e.id ≤ 0
      · rw [if_pos hd]; exact h0 k'
      · rw [if_neg hd]
        by_cases hk : k' = movKey e
        · simp only [hk, if_pos, List.map_append, List.map_cons, List.map_nil]
          rw [List.nodup_append]
          refine ⟨h0 _, List.nodup_singleton _, ?_⟩
          intro i hi hi'
          simp only [List.mem_singleton] at hi'
          rcases List.mem_map.1 hi with ⟨b, hb, rfl⟩
          exact havoid _ b hb e (List.mem_cons_self e emps) (hi' ▸ rfl)
        · rw [if_neg hk]; exact h0 k'
    · intro k' b hb e' he'
      unfold buildStep at hb
      by_cases hd : e.quantidade - linkedSum all e.id ≤ 0
      · rw [if_pos hd] at hb
        exact havoid k' b hb e' (List.mem_cons_of_mem e he')
      · rw [if_neg hd] at hb
        by_cases hk : k' = movKey e
        · simp only [hk, if_pos] at hb
          rcases List.mem_append.1 hb with hb0 | hnew
          · exact havoid _ b hb0 e' (List.mem_cons_of_mem e he')
          · have hbid : b.id = e.id := by
              have : b = { id := e.id, disp := e.quantidade - linkedSum all e.id } := by
                simpa using hnew
              rw [this]
            rw [hbid]
            intro hcon
            exact hene (hcon ▸ List.mem_map_of_mem (fun m => m.id) he')
        · rw [if_neg hk] at hb
          exact havoid k' b hb e' (List.mem_cons_of_mem e he')

theorem processDev_noop (st : DB × (MKey → List Bucket)) (d : Mov)
    (h : st.2 (movKey d) = []) : processDev st d = st := by
  unfold processDev
  simp [h]

theorem foldl_processDev_noop : ∀ (devs : List Mov) (st : DB × (MKey → List Bucket)),
    (∀ d ∈ devs, st.2 (movKey d) = []) → devs.foldl processDev st = st := by
  intro devs
  induction devs with
  | nil => intro st _; rfl
  | cons d devs ih =>
    intro st h
    rw [List.foldl_cons, processDev_noop st d (h d (List.mem_cons_self d devs))]
    exact ih st (fun d' hd' => h d' (List.mem_cons_of_mem d hd'))

/-- On a settled store the reconciliation job is the identity. -/
theorem migrate_settled_fixed (db : DB) (hs : Settled db) :
    migrate_link_old_returns db = db := by
  have hid : ∀ m ∈ db.movs, selfLinkF m = m := fun m hm =>
    selfLinkF_of_not (fun hcon => hs.1 m hm hcon.1 hcon.2)
  have hmap : db.movs.map selfLinkF = db.movs :=
    (List.map_congr_left hid).trans (List.map_id db.movs)
  have hsl : selfLinked db = db := by
    show ({ db with movs := db.movs.map selfLinkF } : DB) = db
    rw [hmap]
  unfold migrate_link_old_returns
  rw [hsl]
  by_cases hemp : (empsOf db.movs).isEmpty
  · rw [if_pos hemp]
  · rw [if_neg hemp]
    rw [foldl_processDev_noop (devsOf db.movs) (db, buildFifo (empsOf db.movs) db.movs) ?_]
    intro d hd
    obtain ⟨hdm, hddev, hdloan⟩ := devsOf_mem hd
    refine foldl_buildStep_nil_of db.movs (movKey d) (empsOf db.movs) (fun _ => []) ?_ rfl
    intro e he hk
    obtain ⟨hem, heemp⟩ := empsOf_mem he
    exact hs.2 d hdm hddev hdloan e hem heemp hk

-- ---------------------------------------------------------------------------
-- Helper lemmas for the drain-loop invariant
-- ---------------------------------------------------------------------------

theorem processDev_eq (st : DB × (MKey → List Bucket)) (d : Mov)
    (h : (st.2 (movKey d)).isEmpty = false) :
    processDev st d =
      ({ movs :=
          if (drain d.quantidade (st.2 (movKey d))).2.2 ≤ 0 then
            (st.1.movs ++ mkRows d st.1.nextId (drain d.quantidade (st.2 (movKey d))).1).filter
              (fun m => m.id ≠ d.id)
          else
            (st.1.movs ++ mkRows d st.1.nextId (drain d.quantidade (st.2 (movKey d))).1).map
              (fun m => if m.id = d.id then
                  { m with quantidade := (drain d.quantidade (st.2 (movKey d))).2.2 }
                else m),
         nextId := st.1.nextId + (drain d.quantidade (st.2 (movKey d))).1.length },
       fun k' => if k' = movKey d then (drain d.quantidade (st.2 (movKey d))).2.1
                 else st.2 k') := by
  unfold processDev
  simp only [h, Bool.false_eq_true, if_false]

theorem mkRows_ids (d : Mov) : ∀ (n : Nat) (al : List (Nat × Int)),
    (mkRows d n al).map (fun m => m.id) = List.range' n al.length := by
  intro n al
  induction al generalizing n with
  | nil => rfl
  | cons p rest ih =>
    show (mkLinkedRow d n p.1 p.2).id :: (mkRows d (n + 1) rest).map (fun m => m.id)
      = List.range' n (rest.length + 1)
    rw [ih (n + 1)]
    rfl

theorem amt_nonneg {al : List (Nat × Int)} (h : ∀ p ∈ al, 0 < p.2) (i : Nat) :
    0 ≤ amt al i := by
  induction al with
  | nil => simp [amt_nil]
  | cons p rest ih =>
    rw [amt_cons]
    have h1 := h p (List.mem_cons_self p rest)
    have h2 := ih (fun p' hp' => h p' (List.mem_cons_of_mem p hp'))
    by_cases hc : p.1 = i
    · rw [if_pos hc]; omega
    · rw [if_neg hc]; omega

theorem filter_isEmp_append_dev (l l' : List Mov)
    (h : ∀ m ∈ l', isEmp m.tipo = false) :
    (l ++ l').filter (fun m => isEmp m.tipo) = l.filter (fun m => isEmp m.tipo) := by
  rw [List.filter_append]
  have hnil : l'.filter (fun m => isEmp m.tipo) = [] := by
    rw [List.filter_eq_nil_iff]
    intro m hm
    simp [h m hm]
  rw [hnil, List.append_nil]

theorem filter_isEmp_filter_ne (l : List Mov) (did : Nat)
    (h : ∀ x ∈ l, x.id = did → isEmp x.tipo = false) :
    (l.filter (fun m => m.id ≠ did)).filter (fun m => isEmp m.tipo)
      = l.filter (fun m => isEmp m.tipo) := by
  rw [List.filter_filter]
  refine List.filter_congr ?_
  intro a ha
  by_cases he : isEmp a.tipo = true
  · have hne : ¬ a.id = did := fun hcon => by
      rw [h a ha hcon] at he
      exact Bool.false_ne_true he
    simp [he, hne]
  · simp only [Bool.not_eq_true] at he
    simp [he]

theorem filter_isEmp_map_update (l : List Mov) (did : Nat) (rest : Int)
    (h : ∀ x ∈ l, x.id = did → isEmp x.tipo = false) :
    ((l.map (fun m => if m.id = did then { m with quantidade := rest } else m)).filter
      (fun m => isEmp m.tipo)) = l.filter (fun m => isEmp m.tipo) := by
  induction l with
  | nil => rfl
  | cons m l ih =>
    have ih' := ih (fun x hx => h x (List.mem_cons_of_mem m hx))
    rw [List.map_cons]
    by_cases hid : m.id = did
    · have hememp : isEmp m.tipo = false := h m (List.mem_cons_self m l) hid
      have hupd : isEmp ({ m with quantidade := rest } : Mov).tipo = false := hememp
      simp [List.filter_cons, hid, hememp, hupd, ih']
    · simp only [if_neg hid]
      by_cases he : isEmp m.tipo = true
      · simp [List.filter_cons, he, ih']
      · simp only [Bool.not_eq_true] at he
        simp [List.filter_cons, he, ih']

theorem mkRows_not_emp (d : Mov) (n : Nat) (al : List (Nat × Int)) :
    ∀ m ∈ mkRows d n al, isEmp m.tipo = false := by
  intro m hm
  obtain ⟨htip, -⟩ := mkRows_row_props d n al m hm
  rw [htip]
  rfl

/-- One drain step preserves the loop invariant. -/
theorem processDev_inv (db1 : DB) (emps : List Mov)
    (hempnd : (emps.map (fun m => m.id)).Nodup)
    (hempmem : ∀ e ∈ emps, e ∈ db1.movs ∧ isEmp e.tipo = true)
    (hids1 : ∀ m ∈ db1.movs, 1 ≤ m.id ∧ m.id < db1.nextId)
    (d : Mov) (tail : List Mov)
    (hd : isDev d.tipo = true) (hd0 : d.loan_id = 0) (hdlt : d.id < db1.nextId)
    (htail : ∀ d' ∈ tail, d'.id ≠ d.id)
    (st : DB × (MKey → List Bucket))
    (hinv : DrainInv db1 emps (d :: tail) st) :
    DrainInv db1 emps tail (processDev st d) := by
  obtain ⟨i1, i2, i3, i4, i5, i6, i7, i8, i9, i10⟩ := hinv
  have hdmem : d ∈ st.1.movs := i5 d (List.mem_cons_self d tail)
  by_cases hfe : (st.2 (movKey d)).isEmpty
  · have hstep : processDev st d = st := processDev_noop st d (List.isEmpty_iff.1 hfe)
    rw [hstep]
    refine ⟨i1, i2, i3, i4, fun d' hd' => i5 d' (List.mem_cons_of_mem d hd'), i6, i7, i8, i9, ?_⟩
    intro m hm hmdev hml hex e he hkey
    by_cases hmd : m.id = d.id
    · have hmed : m = d := mem_id_inj i2 hm hdmem hmd
      rcases le_or_lt (capacity db1.movs e) 0 with hc | hc
      · exact le_trans (i9 e he) hc
      · obtain ⟨b, hb, -⟩ := i8 e he hc
        have hkd : movKey e = movKey d := by rw [hkey, hmed]
        rw [hkd, List.isEmpty_iff.1 hfe] at hb
        exact absurd hb (List.not_mem_nil b)
    · refine i10 m hm hmdev hml (fun d' hd' => ?_) e he hkey
      rcases List.mem_cons.1 hd' with rfl | hd'
      · exact hmd
      · exact hex d' hd'
  · have hfe' : (st.2 (movKey d)).isEmpty = false := by
      rw [Bool.eq_false_iff]; exact hfe
    rw [processDev_eq st d hfe']
    have hdlt' : d.id < st.1.nextId := lt_of_lt_of_le hdlt i3
    have hal_pos : ∀ p ∈ (drain d.quantidade (st.2 (movKey d))).1, 0 < p.2 :=
      fun p hp => (drain_alloc_mem _ _ p hp).2
    have hal_ids : ∀ p ∈ (drain d.quantidade (st.2 (movKey d))).1,
        ∃ b ∈ st.2 (movKey d), p.1 = b.id :=
      fun p hp => (drain_alloc_mem _ _ p hp).1
    have hrow_loan : ∀ m ∈ st.1.movs ++ mkRows d st.1.nextId
        (drain d.quantidade (st.2 (movKey d))).1, m.id = d.id → m.loan_id = 0 := by
      intro m hm hmid
      rcases List.mem_append.1 hm with hm0 | hmk
      · rw [mem_id_inj i2 hm0 hdmem hmid]; exact hd0
      · obtain ⟨hge, -, -⟩ := mkRows_mem d st.1.nextId _ m hmk
        omega
    have hrow_emp : ∀ m ∈ st.1.movs ++ mkRows d st.1.nextId
        (drain d.quantidade (st.2 (movKey d))).1, m.id = d.id → isEmp m.tipo = false := by
      intro m hm hmid
      rcases List.mem_append.1 hm with hm0 | hmk
      · rw [mem_id_inj i2 hm0 hdmem hmid]
        exact isEmp_isDev_disjoint d.tipo hd
      · exact mkRows_not_emp d st.1.nextId _ m hmk
    have hids1' : ∀ m ∈ st.1.movs ++ mkRows d st.1.nextId
        (drain d.quantidade (st.2 (movKey d))).1,
        m.id < st.1.nextId + (drain d.quantidade (st.2 (movKey d))).1.length := by
      intro m hm
      rcases List.mem_append.1 hm with hm0 | hmk
      · have := i1 m hm0; omega
      · obtain ⟨-, hlt2, -⟩ := mkRows_mem d st.1.nextId _ m hmk; omega
    have hnd1 : ((st.1.movs ++ mkRows d st.1.nextId
        (drain d.quantidade (st.2 (movKey d))).1).map (fun m => m.id)).Nodup := by
      rw [List.map_append, mkRows_ids, List.nodup_append]
      refine ⟨i2, List.nodup_range' _ _ 1 one_pos, ?_⟩
      intro a ha ha'
      rcases List.mem_map.1 ha with ⟨m, hm, rfl⟩
      have h1 := i1 m hm
      have h2 := List.mem_range'_1.1 ha'
      omega
    have hcap : ∀ e ∈ emps,
        capacity (if (drain d.quantidade (st.2 (movKey d))).2.2 ≤ 0 then
            (st.1.movs ++ mkRows d st.1.nextId (drain d.quantidade (st.2 (movKey d))).1).filter
              (fun m => m.id ≠ d.id)
          else
            (st.1.movs ++ mkRows d st.1.nextId (drain d.quantidade (st.2 (movKey d))).1).map
              (fun m => if m.id = d.id then
                  { m with quantidade := (drain d.quantidade (st.2 (movKey d))).2.2 }
                else m)) e
          = capacity st.1.movs e - amt (drain d.quantidade (st.2 (movKey d))).1 e.id := by
      intro e he
      have he0 : e.id ≠ 0 := by
        have := (hids1 e (hempmem e he).1).1
        omega
      have hsum1 : linkedSum (st.1.movs ++ mkRows d st.1.nextId
          (drain d.quantidade (st.2 (movKey d))).1) e.id
          = linkedSum st.1.movs e.id + amt (drain d.quantidade (st.2 (movKey d))).1 e.id := by
        rw [linkedSum_append, linkedSum_mkRows]
      unfold capacity
      by_cases hr : (drain d.quantidade (st.2 (movKey d))).2.2 ≤ 0
      · rw [if_pos hr, linkedSum_filter_ne _ d.id e.id he0 hrow_loan, hsum1]; ring
      · rw [if_neg hr, linkedSum_map_update _ d.id _ e.id he0 hrow_loan, hsum1]; ring
    have hamt_nonneg : ∀ i, 0 ≤ amt (drain d.quantidade (st.2 (movKey d))).1 i :=
      amt_nonneg hal_pos
    have hamt0 : ∀ e ∈ emps, movKey e ≠ movKey d →
        amt (drain d.quantidade (st.2 (movKey d))).1 e.id = 0 := by
      intro e he hke
      refine amt_eq_zero (fun p hp hcon => ?_)
      obtain ⟨b, hb, hpb⟩ := hal_ids p hp
      obtain ⟨e0, he0, he0id, he0k, -⟩ := i6 (movKey d) b hb
      have he0e : e0 = e := mem_id_inj hempnd he0 he (by rw [he0id, ← hpb, hcon])
      exact hke (by rw [← he0e, he0k])
    have hspec := drain_spec (st.2 (movKey d)) d.quantidade (i7 (movKey d))
    refine ⟨?_, ?_, ?_, ?_, ?_, ?_, ?_, ?_, ?_, ?_⟩
    · -- (1) id bound
      intro m hm
      show m.id < st.1.nextId + (drain d.quantidade (st.2 (movKey d))).1.length
      by_cases hr : (drain d.quantidade (st.2 (movKey d))).2.2 ≤ 0
      · rw [if_pos hr] at hm
        exact hids1' m (List.mem_filter.1 hm).1
      · rw [if_neg hr] at hm
        rcases List.mem_map.1 hm with ⟨x, hx, rfl⟩
        have hxb := hids1' x hx
        by_cases hxid : x.id = d.id
        · rw [if_pos hxid]; exact hxb
        · rw [if_neg hxid]; exact hxb
    · -- (2) Nodup ids
      show (((if (drain d.quantidade (st.2 (movKey d))).2.2 ≤ 0 then _ else _ : List Mov)).map
        (fun m => m.id)).Nodup
      by_cases hr : (drain d.quantidade (st.2 (movKey d))).2.2 ≤ 0
      · rw [if_pos hr]
        exact ((List.filter_sublist _).map _).nodup hnd1
      · rw [if_neg hr]
        have hmeq : ((st.1.movs ++ mkRows d st.1.nextId
            (drain d.quantidade (st.2 (movKey d))).1).map
              (fun m => if m.id = d.id then
                  { m with quantidade := (drain d.quantidade (st.2 (movKey d))).2.2 }
                else m)).map (fun m => m.id)
            = (st.1.movs ++ mkRows d st.1.nextId
                (drain d.quantidade (st.2 (movKey d))).1).map (fun m => m.id) := by
          rw [List.map_map]
          refine List.map_congr_left ?_
          intro x _
          by_cases hxid : x.id = d.id
          · simp [hxid]
          · simp [hxid]
        rw [hmeq]
        exact hnd1
    · -- (3) nextId grows
      show db1.nextId ≤ st.1.nextId + (drain d.quantidade (st.2 (movKey d))).1.length
      omega
    · -- (4) loan rows unchanged
      have hbase : (st.1.movs ++ mkRows d st.1.nextId
          (drain d.quantidade (st.2 (movKey d))).1).filter (fun m => isEmp m.tipo)
          = db1.movs.filter (fun m => isEmp m.tipo) := by
        rw [filter_isEmp_append_dev _ _ (mkRows_not_emp d st.1.nextId _)]
        exact i4
      by_cases hr : (drain d.quantidade (st.2 (movKey d))).2.2 ≤ 0
      · show ((if (drain d.quantidade (st.2 (movKey d))).2.2 ≤ 0 then _ else _ : List Mov)).filter
          (fun m => isEmp m.tipo) = _
        rw [if_pos hr, filter_isEmp_filter_ne _ d.id hrow_emp, hbase]
      · show ((if (drain d.quantidade (st.2 (movKey d))).2.2 ≤ 0 then _ else _ : List Mov)).filter
          (fun m => isEmp m.tipo) = _
        rw [if_neg hr, filter_isEmp_map_update _ d.id _ hrow_emp, hbase]
    · -- (5) remaining rows survive untouched
      intro d' hd'
      have hd'mem : d' ∈ st.1.movs := i5 d' (List.mem_cons_of_mem d hd')
      have hd'm1 : d' ∈ st.1.movs ++ mkRows d st.1.nextId
          (drain d.quantidade (st.2 (movKey d))).1 := List.mem_append_left _ hd'mem
      have hdne : d'.id ≠ d.id := htail d' hd'
      by_cases hr : (drain d.quantidade (st.2 (movKey d))).2.2 ≤ 0
      · show d' ∈ (if (drain d.quantidade (st.2 (movKey d))).2.2 ≤ 0 then _ else _ : List Mov)
        rw [if_pos hr]
        exact List.mem_filter.2 ⟨hd'm1, by simp [hdne]⟩
      · show d' ∈ (if (drain d.quantidade (st.2 (movKey d))).2.2 ≤ 0 then _ else _ : List Mov)
        rw [if_neg hr]
        have hface : (if d'.id = d.id then
            { d' with quantidade := (drain d.quantidade (st.2 (movKey d))).2.2 }
          else d') = d' := if_neg hdne
        rw [← hface]
        exact List.mem_map_of_mem _ hd'm1
    · -- (6) fifo coherence
      intro k b' hb'
      change b' ∈ (if k = movKey d then (drain d.quantidade (st.2 (movKey d))).2.1
        else st.2 k) at hb'
      by_cases hk : k = movKey d
      · rw [if_pos hk] at hb'
        obtain ⟨b, hb, hrel⟩ := forall2_mem_right hspec b' hb'
        obtain ⟨e, he, heid, hek, hecap⟩ := i6 (movKey d) b hb
        refine ⟨e, he, heid.trans hrel.1.symm, hk ▸ hek, ?_⟩
        rw [hcap e he, hecap, heid, hrel.2]
      · rw [if_neg hk] at hb'
        obtain ⟨e, he, heid, hek, hecap⟩ := i6 k b' hb'
        refine ⟨e, he, heid, hek, ?_⟩
        rw [hcap e he, hamt0 e he (by rw [hek]; exact hk), hecap]
        ring
    · -- (7) fifo id lists stay Nodup
      intro k
      change (((if k = movKey d then (drain d.quantidade (st.2 (movKey d))).2.1
        else st.2 k)).map (fun b => b.id)).Nodup
      by_cases hk : k = movKey d
      · rw [if_pos hk]
        have hids : ((drain d.quantidade (st.2 (movKey d))).2.1).map (fun b => b.id)
            = (st.2 (movKey d)).map (fun b => b.id) :=
          drain_fila_ids (st.2 (movKey d)) d.quantidade
        rw [hids]
        exact i7 (movKey d)
      · rw [if_neg hk]
        exact i7 k
    · -- (8) coverage
      intro e he hpos
      obtain ⟨b, hb, hbid⟩ := i8 e he hpos
      change ∃ b' ∈ (if movKey e = movKey d then (drain d.quantidade (st.2 (movKey d))).2.1
        else st.2 (movKey e)), b'.id = e.id
      by_cases hk : movKey e = movKey d
      · rw [if_pos hk]
        rw [hk] at hb
        obtain ⟨b', hb', hrel⟩ := forall2_mem_left hspec b hb
        exact ⟨b', hb', by rw [hrel.1, hbid]⟩
      · rw [if_neg hk]
        exact ⟨b, hb, hbid⟩
    · -- (9) capacities only decrease
      intro e he
      rw [hcap e he]
      have h1 := hamt_nonneg e.id
      have h2 := i9 e he
      omega
    · -- (10) settledness
      intro m hm hmdev hml hex e he hkey
      by_cases hr : (drain d.quantidade (st.2 (movKey d))).2.2 ≤ 0
      · rw [if_pos hr] at hm ⊢
        obtain ⟨hm1, hmne⟩ := List.mem_filter.1 hm
        have hmne' : m.id ≠ d.id := by simpa using hmne
        rcases List.mem_append.1 hm1 with hm0 | hmk
        · have hset := i10 m hm0 hmdev hml (fun d' hd' => by
            rcases List.mem_cons.1 hd' with rfl | hd'
            · exact hmne'
            · exact hex d' hd') e he hkey
          have hcape := hcap e he
          rw [if_pos hr] at hcape
          rw [hcape]
          have := hamt_nonneg e.id
          omega
        · obtain ⟨-, p, hp, hlp⟩ := mkRows_row_props d st.1.nextId _ m hmk
          obtain ⟨b, hb, hpb⟩ := hal_ids p hp
          obtain ⟨e0, he0, he0id, -, -⟩ := i6 (movKey d) b hb
          have h1 : 1 ≤ e0.id := (hids1 e0 (hempmem e0 he0).1).1
          rw [hml] at hlp
          omega
      · rw [if_neg hr] at hm ⊢
        rcases List.mem_map.1 hm with ⟨x, hx, hxm⟩
        rcases List.mem_append.1 hx with hx0 | hxk
        · by_cases hxid : x.id = d.id
          · -- the leftover update of d itself: the whole queue is exhausted
            have hxd : x = d := mem_id_inj i2 hx0 hdmem hxid
            rw [if_pos hxid] at hxm
            have hkm : movKey m = movKey d := by
              rw [← hxm, hxd]
              rfl
            have hked : movKey e = movKey d := by rw [hkey, hkm]
            have hcape := hcap e he
            rw [if_neg hr] at hcape
            rw [hcape]
            rcases lt_or_le 0 (capacity db1.movs e) with hpos | hneg
            · obtain ⟨b, hb, hbid⟩ := i8 e he hpos
              rw [hked] at hb
              obtain ⟨b', hb', hrel⟩ := forall2_mem_left hspec b hb
              have hleft := drain_leftover (st.2 (movKey d)) d.quantidade (by omega) b' hb'
              obtain ⟨e0, he0, he0id, -, hecap⟩ := i6 (movKey d) b hb
              have he0e : e0 = e := mem_id_inj hempnd he0 he (by rw [he0id, hbid])
              rw [← he0e, hecap]
              rw [he0e, ← hbid]
              have := hrel.2
              omega
            · have h2 := i9 e he
              have h3 := hamt_nonneg e.id
              omega
          · rw [if_neg hxid] at hxm
            subst hxm
            have hset := i10 x hx0 hmdev hml (fun d' hd' => by
              rcases List.mem_cons.1 hd' with rfl | hd'
              · exact hxid
              · exact hex d' hd') e he hkey
            have hcape := hcap e he
            rw [if_neg hr] at hcape
            rw [hcape]
            have := hamt_nonneg e.id
            omega
        · -- inserted rows are linked: contradiction with m.loan_id = 0
          exfalso
          obtain ⟨-, p, hp, hlp⟩ := mkRows_row_props d st.1.nextId _ x hxk
          obtain ⟨b, hb, hpb⟩ := hal_ids p hp
          obtain ⟨e0, he0, he0id, -, -⟩ := i6 (movKey d) b hb
          have h1 : 1 ≤ e0.id := (hids1 e0 (hempmem e0 he0).1).1
          have hxl : x.loan_id = 0 := by
            by_cases hxid : x.id = d.id
            · rw [if_pos hxid] at hxm
              rw [← hxm] at hml
              exact hml
            · rw [if_neg hxid] at hxm
              rw [← hxm] at hml
              exact hml
          rw [hxl] at hlp
          omega

theorem foldl_processDev_inv (db1 : DB) (emps : List Mov)
    (hempnd : (emps.map (fun m => m.id)).Nodup)
    (hempmem : ∀ e ∈ emps, e ∈ db1.movs ∧ isEmp e.tipo = true)
    (hids1 : ∀ m ∈ db1.movs, 1 ≤ m.id ∧ m.id < db1.nextId) :
    ∀ (remaining : List Mov) (st : DB × (MKey → List Bucket)),
      ((remaining.map (fun m => m.id)).Nodup) →
      (∀ d ∈ remaining, isDev d.tipo = true ∧ d.loan_id = 0 ∧ d.id < db1.nextId) →
      DrainInv db1 emps remaining st →
      DrainInv db1 emps [] (remaining.foldl processDev st) := by
  intro remaining
  induction remaining with
  | nil => intro st _ _ h; exact h
  | cons d tail ih =>
    intro st hnd hprops hinv
    rw [List.foldl_cons]
    refine ih (processDev st d) (List.nodup_cons.1 hnd).2
      (fun d' hd' => hprops d' (List.mem_cons_of_mem d hd')) ?_
    obtain ⟨h1, h2, h3⟩ := hprops d (List.mem_cons_self d tail)
    refine processDev_inv db1 emps hempnd hempmem hids1 d tail h1 h2 h3 ?_ st hinv
    intro d' hd' hcon
    have hmm : d.id ∈ tail.map (fun m => m.id) := by
      rw [← hcon]
      exact List.mem_map_of_mem (fun m => m.id) hd'
    exact (List.nodup_cons.1 hnd).1 hmm

/-- Zeta-expanded form of the job (for rewriting). -/
theorem migrate_eq (db : DB) :
    migrate_link_old_returns db =
      if (empsOf (selfLinked db).movs).isEmpty then selfLinked db
      else ((devsOf (selfLinked db).movs).foldl processDev
        (selfLinked db, buildFifo (empsOf (selfLinked db).movs) (selfLinked db).movs)).1 :=
  rfl

theorem filterSort_ids_nodup (l : List Mov) (p : Mov → Bool)
    (h : (l.map (fun m => m.id)).Nodup) :
    ((sortByTs (l.filter p)).map (fun m => m.id)).Nodup := by
  have hperm : (sortByTs (l.filter p)).Perm (l.filter p) :=
    List.perm_insertionSort _ _
  have hperm2 := hperm.map (fun m => m.id)
  have hsub : ((l.filter p).map (fun m => m.id)).Sublist (l.map (fun m => m.id)) :=
    (List.filter_sublist l).map _
  exact (hperm2.nodup_iff).2 (hsub.nodup h)

theorem selfLinkF_emp_linked (m : Mov) (h1 : 1 ≤ m.id) (he : isEmp m.tipo = true) :
    (selfLinkF m).loan_id ≠ 0 := by
  unfold selfLinkF
  by_cases h : isEmp m.tipo = true ∧ m.loan_id = 0
  · rw [if_pos h]
    show m.id ≠ 0
    omega
  · rw [if_neg h]
    intro hcon
    exact h ⟨he, hcon⟩

/-- After one run of the job on a well-formed store, the store is settled:
all loans are self-linked, and every still-unlinked return faces only
exhausted loans of its matching key. -/
theorem migrate_settled (db : DB) (hwf : WF db) :
    Settled (migrate_link_old_returns db) := by
  have hwf1 : WF (selfLinked db) := WF_selfLinked hwf
  rw [migrate_eq]
  by_cases hemp : (empsOf (selfLinked db).movs).isEmpty
  · rw [if_pos hemp]
    have hnil : (selfLinked db).movs.filter (fun m => isEmp m.tipo) = [] := by
      unfold empsOf sortByTs at hemp
      have hlen := List.length_insertionSort
        (fun a b : Mov => a.timestamp ≤ b.timestamp)
        ((selfLinked db).movs.filter (fun m => isEmp m.tipo))
      rw [List.isEmpty_iff] at hemp
      rw [hemp] at hlen
      exact List.eq_nil_of_length_eq_zero hlen.symm
    constructor
    · intro m hm hememp
      have hmem : m ∈ (selfLinked db).movs.filter (fun m => isEmp m.tipo) :=
        List.mem_filter.2 ⟨hm, hememp⟩
      rw [hnil] at hmem
      exact absurd hmem (List.not_mem_nil m)
    · intro dd hdd hdev hdl e he heemp hkey
      have hmem : e ∈ (selfLinked db).movs.filter (fun m => isEmp m.tipo) :=
        List.mem_filter.2 ⟨he, heemp⟩
      rw [hnil] at hmem
      exact absurd hmem (List.not_mem_nil e)
  · rw [if_neg hemp]
    have hids1 : ∀ m ∈ (selfLinked db).movs, 1 ≤ m.id ∧ m.id < (selfLinked db).nextId :=
      hwf1.1
    have hempnd : ((empsOf (selfLinked db).movs).map (fun m => m.id)).Nodup :=
      filterSort_ids_nodup _ _ hwf1.2
    have hempmem : ∀ e ∈ empsOf (selfLinked db).movs,
        e ∈ (selfLinked db).movs ∧ isEmp e.tipo = true :=
      fun e he => empsOf_mem he
    have hdevnd : ((devsOf (selfLinked db).movs).map (fun m => m.id)).Nodup :=
      filterSort_ids_nodup _ _ hwf1.2
    have hdevprops : ∀ d ∈ devsOf (selfLinked db).movs,
        isDev d.tipo = true ∧ d.loan_id = 0 ∧ d.id < (selfLinked db).nextId := by
      intro d hd
      obtain ⟨hdm, hdev, hdl⟩ := devsOf_mem hd
      exact ⟨hdev, hdl, (hwf1.1 d hdm).2⟩
    have hinv0 : DrainInv (selfLinked db) (empsOf (selfLinked db).movs)
        (devsOf (selfLinked db).movs)
        ((selfLinked db), buildFifo (empsOf (selfLinked db).movs) (selfLinked db).movs) := by
      refine ⟨fun m hm => (hwf1.1 m hm).2, hwf1.2, le_refl _, rfl,
        fun d hd => (devsOf_mem hd).1, ?_, ?_, ?_, fun e _ => le_refl _, ?_⟩
      · -- initial coherence
        intro k b hb
        refine foldl_buildStep_pres (selfLinked db).movs
          (fun b k => ∃ e ∈ empsOf (selfLinked db).movs, e.id = b.id ∧ movKey e = k ∧
            capacity (selfLinked db).movs e = b.disp)
          (empsOf (selfLinked db).movs) (fun _ => [])
          (fun k' b' hb' => absurd hb' (List.not_mem_nil b')) ?_ k b hb
        intro e he hpos
        exact ⟨e, he, rfl, rfl, rfl⟩
      · -- initial per-queue Nodup
        intro k
        refine foldl_buildStep_nodup (selfLinked db).movs (empsOf (selfLinked db).movs)
          (fun _ => []) (fun _ => List.nodup_nil)
          (fun k' b hb => absurd hb (List.not_mem_nil b)) hempnd k
      · -- initial coverage
        intro e he hpos
        exact foldl_buildStep_cov (selfLinked db).movs (empsOf (selfLinked db).movs)
          (fun _ => []) e he hpos
      · -- initially nothing is settled-exempt: every unlinked return is pending
        intro m hm hmdev hml hex e he hkey
        have hmdevs : m ∈ devsOf (selfLinked db).movs := by
          unfold devsOf sortByTs
          rw [List.mem_insertionSort]
          exact List.mem_filter.2 ⟨hm, by simp [hmdev, hml]⟩
        exact absurd rfl (hex m hmdevs)
    have hfinal := foldl_processDev_inv (selfLinked db) (empsOf (selfLinked db).movs)
      hempnd hempmem hids1 (devsOf (selfLinked db).movs) _ hdevnd hdevprops hinv0
    obtain ⟨f1, f2, f3, f4, f5, f6, f7, f8, f9, f10⟩ := hfinal
    constructor
    · -- every loan row is linked
      intro m hm hememp
      have hmf : m ∈ ((devsOf (selfLinked db).movs).foldl processDev
          ((selfLinked db), buildFifo (empsOf (selfLinked db).movs)
            (selfLinked db).movs)).1.movs.filter (fun m => isEmp m.tipo) :=
        List.mem_filter.2 ⟨hm, hememp⟩
      rw [f4] at hmf
      have hm1 := (List.mem_filter.1 hmf).1
      rcases List.mem_map.1 hm1 with ⟨m0, hm0, rfl⟩
      have h1 : 1 ≤ m0.id := (hwf.1 m0 hm0).1
      have he0 : isEmp m0.tipo = true := by
        rw [← selfLinkF_tipo m0]
        exact hememp
      exact selfLinkF_emp_linked m0 h1 he0
    · -- every unlinked return faces only exhausted loans
      intro dd hdd hdev hdl e he heemp hkey
      have hef : e ∈ ((devsOf (selfLinked db).movs).foldl processDev
          ((selfLinked db), buildFifo (empsOf (selfLinked db).movs)
            (selfLinked db).movs)).1.movs.filter (fun m => isEmp m.tipo) :=
        List.mem_filter.2 ⟨he, heemp⟩
      rw [f4] at hef
      have he1 := List.mem_filter.1 hef
      have hee : e ∈ empsOf (selfLinked db).movs := by
        unfold empsOf sortByTs
        rw [List.mem_insertionSort]
        exact List.mem_filter.2 he1
      exact f10 dd hdd hdev hdl (fun d' hd' => absurd hd' (List.not_mem_nil d')) e hee hkey

/-- C5: the reconciliation job is idempotent: on every well-formed starting
store, running `migrate_link_old_returns` twice yields exactly the same
store (hence the same `loan_id` assignments and the same derived balances)
as running it once. -/
theorem C5_theorem (db : DB) (hwf : WF db) :
    migrate_link_old_returns (migrate_link_old_returns db) = migrate_link_old_returns db :=
  migrate_settled_fixed _ (migrate_settled db hwf)

/-- C5 witness: idempotence at the concrete FIFO scenario store. -/
theorem C5_witness :
    WF dbFifo ∧
    migrate_link_old_returns (migrate_link_old_returns dbFifo) = migrate_link_old_returns dbFifo :=
  ⟨by decide, C5_theorem dbFifo (by decide)⟩

-- ---------------------------------------------------------------------------
-- C8: pending-loan list
-- ---------------------------------------------------------------------------

/-- C8 (counterexample): two open loans, neither overdue, due `10/12/2025`
(loan 1) and `02/01/2026` (loan 2).  The list is sorted by the due-date
STRING, so loan 2 — whose due date is LATER as a date — comes first:
`due_on` is not sorted "ascending as dates". -/
theorem C8_counterexample :
    ((emprestimos_pendentes_df (2025, 10, 1) exCat dbDates.movs).map
        (fun r => (r.loan_id, r.atrasado)) = [(2, false), (1, false)]) ∧
    parseDMY "10/12/2025" = some (2025, 12, 10) ∧
    parseDMY "02/01/2026" = some (2026, 1, 2) ∧
    dateLT (2025, 12, 10) (2026, 1, 2) = true := by
  refine ⟨by decide, by decide, by decide, by decide⟩

theorem pairwise_orderedInsert {α : Type} (r : α → α → Prop) [DecidableRel r]
    (R : α → α → Prop)
    (himp : ∀ a b, r a b → R a b) (himp2 : ∀ a b, ¬ r a b → R b a)
    (htrans : ∀ a b c, R a b → R b c → R a c) (a : α) :
    ∀ l : List α, l.Pairwise R → (l.orderedInsert r a).Pairwise R := by
  intro l
  induction l with
  | nil =>
    intro _
    simp [List.orderedInsert]
  | cons b l ih =>
    intro hp
    rw [List.orderedInsert]
    have hpb := List.pairwise_cons.1 hp
    by_cases hr : r a b
    · rw [if_pos hr]
      have hRab := himp a b hr
      refine List.pairwise_cons.2 ⟨?_, hp⟩
      intro x hx
      rcases List.mem_cons.1 hx with rfl | hx
      · exact hRab
      · exact htrans a b x hRab (hpb.1 x hx)
    · rw [if_neg hr]
      refine List.pairwise_cons.2 ⟨?_, ih hpb.2⟩
      intro x hx
      rw [List.mem_orderedInsert] at hx
      rcases hx with rfl | hx
      · exact himp2 x b hr
      · exact hpb.1 x hx

theorem pairwise_insertionSort {α : Type} (r : α → α → Prop) [DecidableRel r]
    (R : α → α → Prop)
    (himp : ∀ a b, r a b → R a b) (himp2 : ∀ a b, ¬ r a b → R b a)
    (htrans : ∀ a b c, R a b → R b c → R a c) :
    ∀ l : List α, (l.insertionSort r).Pairwise R := by
  intro l
  induction l with
  | nil => simp [List.insertionSort]
  | cons a l ih =>
    rw [List.insertionSort]
    exact pairwise_orderedInsert r R himp himp2 htrans a _ ih

theorem pendLE_atrasado {a b : PendRow} (h : pendLE a b = true) :
    b.atrasado = true → a.atrasado = true := by
  intro hb
  by_cases ha : a.atrasado = true
  · exact ha
  · exfalso
    simp only [Bool.not_eq_true] at ha
    unfold pendLE at h
    rw [ha, hb] at h
    simp at h

theorem pendLE_atrasado_neg {a b : PendRow} (h : ¬ pendLE a b = true) :
    a.atrasado = true → b.atrasado = true := by
  intro ha
  by_cases hb : b.atrasado = true
  · exact hb
  · exfalso
    simp only [Bool.not_eq_true] at hb
    unfold pendLE at h
    rw [ha, hb] at h
    simp at h

/-- C8 (amended): the pending list emits exactly the Loan movements with
positive derived pending quantity, sorted stably by
`(overdue descending, due-date string, date string, hour string — all
ascending LEXICOGRAPHICALLY as strings, not as dates)`; in particular an
overdue open loan never appears after a non-overdue one. -/
theorem C8_theorem (today : Nat × Nat × Nat) (dfi : List Item) (dfm : List Mov) :
    (∀ r ∈ emprestimos_pendentes_df today dfi dfm, 0 < r.q_pendente) ∧
    (∀ e ∈ dfm, isEmp e.tipo = true →
      (pendRowOf dfm dfi today e ∈ emprestimos_pendentes_df today dfi dfm ↔
        0 < (pendRowOf dfm dfi today e).q_pendente)) ∧
    (emprestimos_pendentes_df today dfi dfm).Pairwise
      (fun a b => b.atrasado = true → a.atrasado = true) := by
  refine ⟨?_, ?_, ?_⟩
  · intro r hr
    unfold emprestimos_pendentes_df at hr
    rw [List.mem_insertionSort] at hr
    have := (List.mem_filter.1 hr).2
    simpa using this
  · intro e he hemp
    unfold emprestimos_pendentes_df
    rw [List.mem_insertionSort]
    constructor
    · intro hmem
      have := (List.mem_filter.1 hmem).2
      simpa using this
    · intro hpos
      refine List.mem_filter.2 ⟨?_, by simpa using hpos⟩
      exact List.mem_map_of_mem _ (List.mem_filter.2 ⟨he, hemp⟩)
  · unfold emprestimos_pendentes_df
    exact pairwise_insertionSort (fun a b => pendLE a b = true)
      (fun a b => b.atrasado = true → a.atrasado = true)
      (fun a b h => pendLE_atrasado h)
      (fun a b h => pendLE_atrasado_neg h)
      (fun a b c hab hbc hc => hab (hbc hc)) _

/-- C8 witness: the amended theorem at the concrete two-loan store. -/
theorem C8_witness :
    (∀ r ∈ emprestimos_pendentes_df (2025, 10, 1) exCat dbDates.movs, 0 < r.q_pendente) ∧
    (∀ e ∈ dbDates.movs, isEmp e.tipo = true →
      (pendRowOf dbDates.movs exCat (2025, 10, 1) e ∈
          emprestimos_pendentes_df (2025, 10, 1) exCat dbDates.movs ↔
        0 < (pendRowOf dbDates.movs exCat (2025, 10, 1) e).q_pendente)) ∧
    (emprestimos_pendentes_df (2025, 10, 1) exCat dbDates.movs).Pairwise
      (fun a b => b.atrasado = true → a.atrasado = true) :=
  C8_theorem (2025, 10, 1) exCat dbDates.movs

-- ---------------------------------------------------------------------------
-- C9: last-movement status
-- ---------------------------------------------------------------------------

theorem getLast?_pairwise_all {R : Mov → Mov → Prop} :
    ∀ {l : List Mov} {m : Mov}, l.Pairwise R → l.getLast? = some m →
      ∀ x ∈ l, x = m ∨ R x m := by
  intro l
  induction l with
  | nil => intro m _ h; simp at h
  | cons a t ih =>
    intro m hp hl x hx
    cases t with
    | nil =>
      simp only [List.getLast?_singleton, Option.some.injEq] at hl
      rcases List.mem_singleton.1 hx with rfl
      exact Or.inl hl
    | cons b t' =>
      have hl' : (b :: t').getLast? = some m := by
        rw [List.getLast?_cons_cons] at hl
        exact hl
      have hpc := List.pairwise_cons.1 hp
      rcases List.mem_cons.1 hx with rfl | hx'
      · have hmm : m ∈ b :: t' := List.mem_of_mem_getLast? (by rw [hl']; rfl)
        exact Or.inr (hpc.1 m hmm)
      · exact ih hpc.2 hl' x hx'

/-- C9 (counterexample): the status view's sort — pandas
`df.sort_values("timestamp")` with the default unstable `kind='quicksort'`
— only guarantees a timestamp-ascending permutation of the snapshot.  On a
loan (id 1) and a return (id 2) with EQUAL timestamps on the same item, the
order putting the return first is such a permutation, and the selection
then deems the loan — the movement with the SMALLER id — last, giving
status `"Emprestado"`: the larger-id tie-break asserted by the claim is not
a guarantee of the program. -/
theorem C9_counterexample :
    isTsSortOf [exLoan 1 5 1, exRet 2 5 1 1] [exRet 2 5 1 1, exLoan 1 5 1] ∧
    ultimoPorItem [exRet 2 5 1 1, exLoan 1 5 1] "Atlas" = some (exLoan 1 5 1) ∧
    (exLoan 1 5 1).timestamp = (exRet 2 5 1 1).timestamp ∧
    (exLoan 1 5 1).id < (exRet 2 5 1 1).id ∧
    statusOf (exLoan 1 5 1).tipo = "Emprestado" :=
  ⟨⟨List.Perm.swap _ _ _, by decide⟩, by decide, by decide, by decide, by decide⟩

/-- C9 (amended): for EVERY timestamp-sorted order of the snapshot — all
that the unstable sort guarantees — the movement selected for an item
belongs to the snapshot and that item and carries the item's maximal
timestamp; when some movement of the item is strictly later than all its
other movements, it is exactly the selected one, so the selection is the
chronologically last movement whenever the latest timestamp is unique.
Among movements tied at the latest timestamp the selection is
implementation-defined.  A selected Loan yields status `"Emprestado"`, a
selected Return `"Disponível"`. -/
theorem C9_theorem (dfm out : List Mov) (hout : isTsSortOf dfm out)
    (item : String) (m : Mov) (hm : ultimoPorItem out item = some m) :
    m ∈ dfm ∧ m.item_nome = item ∧
    (∀ m' ∈ dfm, m'.item_nome = item → m'.timestamp ≤ m.timestamp) ∧
    (∀ l ∈ dfm, l.item_nome = item →
      (∀ m' ∈ dfm, m'.item_nome = item → m' = l ∨ m'.timestamp < l.timestamp) →
      m = l) ∧
    (isEmp m.tipo = true → statusOf m.tipo = "Emprestado") ∧
    (isDev m.tipo = true → statusOf m.tipo = "Disponível") := by
  obtain ⟨hperm, hsorted⟩ := hout
  unfold ultimoPorItem at hm
  have hfsub : (out.filter (fun x => x.item_nome = item)).Sublist out :=
    List.filter_sublist _
  have hfsorted := List.Pairwise.sublist hfsub hsorted
  have hmf : m ∈ out.filter (fun x => x.item_nome = item) :=
    List.mem_of_mem_getLast? (by rw [hm]; rfl)
  have hmax := getLast?_pairwise_all hfsorted hm
  have hmitem : m.item_nome = item := by
    have := (List.mem_filter.1 hmf).2
    simpa using this
  have hmdfm : m ∈ dfm := hperm.subset (List.mem_filter.1 hmf).1
  have hmaxts : ∀ m' ∈ dfm, m'.item_nome = item → m'.timestamp ≤ m.timestamp := by
    intro m' hm' hm'item
    have hm'f : m' ∈ out.filter (fun x => x.item_nome = item) :=
      List.mem_filter.2 ⟨hperm.mem_iff.2 hm', by simp [hm'item]⟩
    rcases hmax m' hm'f with rfl | hle
    · exact le_refl _
    · exact hle
  refine ⟨hmdfm, hmitem, hmaxts, ?_, ?_, ?_⟩
  · intro l hl hlitem hstrict
    rcases hstrict m hmdfm hmitem with h | h
    · exact h
    · exact absurd (hmaxts l hl hlitem) (by omega)
  · intro hemp
    unfold statusOf
    rw [if_pos hemp]
  · intro hdev
    unfold statusOf
    rw [if_neg]
    rw [isEmp_isDev_disjoint m.tipo hdev]
    exact Bool.false_ne_true

/-- C9 witness: the amended theorem at a tie-free store — a loan (id 1) at
time 4 and a return (id 2) at time 5 on the same item; the identity order
is timestamp-sorted, the strictly latest movement (the return) is selected,
and its status is `"Disponível"`. -/
theorem C9_witness :
    isTsSortOf [exLoan 1 4 1, exRet 2 5 1 1] [exLoan 1 4 1, exRet 2 5 1 1] ∧
    ultimoPorItem [exLoan 1 4 1, exRet 2 5 1 1] "Atlas" = some (exRet 2 5 1 1) ∧
    (exRet 2 5 1 1 ∈ [exLoan 1 4 1, exRet 2 5 1 1] ∧
     (exRet 2 5 1 1).item_nome = "Atlas" ∧
     (∀ m' ∈ [exLoan 1 4 1, exRet 2 5 1 1], m'.item_nome = "Atlas" →
       m'.timestamp ≤ (exRet 2 5 1 1).timestamp) ∧
     (∀ l ∈ [exLoan 1 4 1, exRet 2 5 1 1], l.item_nome = "Atlas" →
       (∀ m' ∈ [exLoan 1 4 1, exRet 2 5 1 1], m'.item_nome = "Atlas" →
         m' = l ∨ m'.timestamp < l.timestamp) →
       exRet 2 5 1 1 = l) ∧
     (isEmp (exRet 2 5 1 1).tipo = true → statusOf (exRet 2 5 1 1).tipo = "Emprestado") ∧
     (isDev (exRet 2 5 1 1).tipo = true → statusOf (exRet 2 5 1 1).tipo = "Disponível")) :=
  ⟨⟨List.Perm.refl _, by decide⟩, by decide,
    C9_theorem [exLoan 1 4 1, exRet 2 5 1 1] [exLoan 1 4 1, exRet 2 5 1 1]
      ⟨List.Perm.refl _, by decide⟩ "Atlas" (exRet 2 5 1 1) (by decide)⟩
